import Mathlib

/-!
# Office Politics: card-selection and resource-state engine

A shallow embedding of the game engine of `src/desktop` (`card.go`, `config.go`,
`deck.go`, `game.go`, `render.go`) and proofs about it.

Conventions of the embedding.

* Go `int` values are modelled by `Int`; the sums computed by `updateResources`
  (a stat plus its scaled delta, the day plus one) are wrapped to 64 bits
  (`wrap64`). `Uses++` is only executed under the test `Uses < MaxUses`, so it
  cannot overflow and is left unwrapped.
* `float64(x) * c` followed by `int(...)` is modelled exactly, by rounding to a
  53-bit significand with ties to even (`round53`) and truncating toward zero.
* A `*Card` is an address (`Nat`) into a card store `heap : Nat → Card`; the
  catalog, the available pool and the pending followups hold addresses, so the
  runtime counter `Uses` of a card is shared between them, as in the source.
  `heapNext` is the next address handed out by an allocation (`&Card{...}`).
* `random.Intn(n)` is modelled by a parameter `r : Nat` reduced modulo `n`.
* The drag/animation fields of `Game` and its two buttons are presentation state
  and are left out.
-/

namespace OfficePolitics

/-! ## card.go -/

/-- Resources represents the player's current game stats. -/
structure Resources where
  Motivation : Int
  Performance : Int
  Colleagues : Int
  Boss : Int
  Day : Int
  deriving DecidableEq, Repr

/-- Requirement defines a condition that must be met for a card to appear. -/
inductive Requirement where
  | mk (Typ : String) (Conditions : List Requirement) (Resource : String)
      (Comparison : String) (Value : Int) : Requirement

namespace Requirement

/-- The `Type` field: "and" or "or" for compound requirements. -/
def Typ : Requirement → String
  | mk t _ _ _ _ => t

/-- The `Conditions` field: sub-requirements of a compound requirement. -/
def Conditions : Requirement → List Requirement
  | mk _ cs _ _ _ => cs

/-- The `Resource` field: the resource to check. -/
def Resource : Requirement → String
  | mk _ _ r _ _ => r

/-- The `Comparison` field: "gt", "lt", "gte", "lte", "eq". -/
def Comparison : Requirement → String
  | mk _ _ _ c _ => c

/-- The `Value` field: the value to compare against. -/
def Value : Requirement → Int
  | mk _ _ _ _ v => v

end Requirement

/-- Effects defines how resources change. -/
structure Effects where
  Motivation : Int := 0
  Performance : Int := 0
  Colleagues : Int := 0
  Boss : Int := 0
  deriving DecidableEq, Repr

/-- A decoded JSON value, the content of an `interface{}` followup field. -/
inductive Dyn where
  | null : Dyn
  | bool (b : Bool) : Dyn
  | num (n : Int) : Dyn
  | str (s : String) : Dyn
  | arr (xs : List Dyn) : Dyn
  | obj (kvs : List (String × Dyn)) : Dyn

/-- Card represents a decision card in the game. -/
structure Card where
  ID : String := ""
  Text : String := ""
  YesText : String := ""
  NoText : String := ""
  YesEffects : Effects := {}
  NoEffects : Effects := {}
  IsInfoOnly : Bool := false
  Effects : Effects := {}
  Requirements : Option Requirement := none
  MaxUses : Int := 0
  Uses : Int := 0
  ParentCardID : String := ""
  YesFollowup : Option Dyn := none
  NoFollowup : Option Dyn := none
  Followup : Option Dyn := none

/-- FollowupCardItem represents a delayed followup card; `Card` is a `*Card`. -/
structure FollowupCardItem where
  Card : Nat
  ShowOnDay : Int
  ParentCardID : String
  deriving DecidableEq, Repr

/-! ## config.go -/

/-- In the `const` block of config.go `stateGame = iota` is the third constant. -/
def stateGame : Int := 2

/-- Second state constant. -/
def stateGameOver : Int := 3

/-- Third state constant. -/
def stateAbout : Int := 4

/-- Resource floor. -/
def minValue : Int := 0

/-- Resource ceiling. -/
def maxValue : Int := 100

/-! ## game.go: the session -/

/-- Game represents the game state (gameplay fields) together with the card store. -/
structure Game where
  state : Int
  resources : Resources
  cards : List Nat
  availableCards : List Nat
  currentCard : Option Nat
  delayedCards : List FollowupCardItem
  playedCardIDs : List String
  gameOver : Bool
  winCardShown : Bool
  gameOverReason : String
  heap : Nat → Card
  heapNext : Nat

/-! ## render.go -/

/-- Utility function to clamp a value between min and max. -/
def clamp (value min max : Int) : Int :=
  if value < min then min
  else if value > max then max
  else value

/-! ## Machine arithmetic -/

/-- Two's-complement wrap of an integer to the range of a Go `int` (64 bits). -/
def wrap64 (x : Int) : Int :=
  (x + 2 ^ 63) % 2 ^ 64 - 2 ^ 63

/-- Number of low bits that must be dropped for `m` to fit in 53 bits, searched
upwards from `s` with `fuel` steps left. -/
def dropBits : Nat → Nat → Nat → Nat
  | 0, _, s => s
  | fuel + 1, m, s => if m / 2 ^ s < 2 ^ 53 then s else dropBits fuel m (s + 1)

/-- Rounding of a natural number to a 53-bit significand, to nearest, ties to
even: the magnitude of the nearest `float64`. Magnitudes below `2 ^ 192` are covered. -/
def round53 (m : Nat) : Nat :=
  if m < 2 ^ 53 then m
  else
    let s := dropBits 140 m 1
    let q := m / 2 ^ s
    let rem := m % 2 ^ s
    let half := 2 ^ (s - 1)
    (if rem > half ∨ (rem = half ∧ q % 2 = 1) then q + 1 else q) * 2 ^ s

/-- Value of `int(float64(x) * 0.5)`: the conversion rounds, the product with a
power of two is exact, `int` truncates toward zero. -/
def scaleHalf (x : Int) : Int :=
  Int.sign x * ((round53 x.natAbs / 2 : Nat) : Int)

/-- Numerator of the `float64` nearest to 0.35, which is `numerator035 / 2 ^ 54`. -/
def numerator035 : Nat := 6305039478318694

/-- Value of `int(float64(x) * 0.35)`: conversion, product rounded to `float64`,
truncation toward zero. -/
def scale035 (x : Int) : Int :=
  Int.sign x * ((round53 (round53 x.natAbs * numerator035) / 2 ^ 54 : Nat) : Int)

/-! ## game.go: requirements -/

/-- The `switch req.Comparison` of a simple requirement; no case matching falls
through to the final `return false`. -/
def compareWith (comparison : String) (resourceValue value : Int) : Bool :=
  if comparison = "gt" then decide (resourceValue > value)
  else if comparison = "lt" then decide (resourceValue < value)
  else if comparison = "gte" then decide (resourceValue ≥ value)
  else if comparison = "lte" then decide (resourceValue ≤ value)
  else if comparison = "eq" then decide (resourceValue = value)
  else false

mutual
/-- Body of `checkRequirements` for a non-nil `*Requirement`. -/
def checkReq (res : Resources) : Requirement → Bool
  | .mk ty conds resource comparison value =>
    if ty ≠ "" ∧ conds.length > 0 ∧ ty = "and" then checkAll res conds
    else if ty ≠ "" ∧ conds.length > 0 ∧ ty = "or" then checkAny res conds
    else if resource ≠ "" ∧ comparison ≠ "" then
      if resource = "motivation" then compareWith comparison res.Motivation value
      else if resource = "performance" then compareWith comparison res.Performance value
      else if resource = "colleagues" then compareWith comparison res.Colleagues value
      else if resource = "boss" then compareWith comparison res.Boss value
      else if resource = "day" then compareWith comparison res.Day value
      else false
    else false
/-- The loop of the "and" case: all conditions must be true. -/
def checkAll (res : Resources) : List Requirement → Bool
  | [] => true
  | c :: cs => if !checkReq res c then false else checkAll res cs
/-- The loop of the "or" case: at least one condition must be true. -/
def checkAny (res : Resources) : List Requirement → Bool
  | [] => false
  | c :: cs => if checkReq res c then true else checkAny res cs
end

/-- Function `checkRequirements`: a nil requirement always holds. -/
def checkRequirements (g : Game) (req : Option Requirement) : Bool :=
  match req with
  | none => true
  | some r => checkReq g.resources r

/-! ## game.go: resources -/

/-- The eight game-over messages of `checkGameOver`, in the order of its `if` chain. -/
def msgMotivationLow : String := "Motivasyonunuz tükendi. İşi bıraktınız."

/-- Message for motivation at the ceiling. -/
def msgMotivationHigh : String := "Aşırı motivasyon sizi tüketti. Burnout oldunuz."

/-- Message for performance at the floor. -/
def msgPerformanceLow : String := "Performansınız çok düşük. Kovuldunuz."

/-- Message for performance at the ceiling. -/
def msgPerformanceHigh : String := "Çok fazla çalıştınız. Tükenmişlik sendromu yaşadınız."

/-- Message for colleagues at the floor. -/
def msgColleaguesLow : String :=
  "İş arkadaşlarınız sizden nefret ediyor. Yalnız kaldınız ve istifa ettiniz."

/-- Message for colleagues at the ceiling. -/
def msgColleaguesHigh : String :=
  "İş arkadaşlarınızla çok yakınsınız. Bu aranızdaki sosyalliğin artmasına ve iş yerine sosyal kulüp muamelesi yapmanıza sebep oldu. Kovuldunuz."

/-- Message for boss at the floor. -/
def msgBossLow : String := "Patronunuz sizi sevmiyor. Kovuldunuz."

/-- Message for boss at the ceiling. -/
def msgBossHigh : String := "Patronunuz sizi çok seviyor. Terfi ettiniz ve oyunu kazandınız!"

/-- The "Set game over reason" chain of `checkGameOver`; `old` is the reason left
in place when no branch assigns. -/
def gameOverReasonFor (r : Resources) (old : String) : String :=
  if r.Motivation ≤ minValue then msgMotivationLow
  else if r.Motivation ≥ maxValue then msgMotivationHigh
  else if r.Performance ≤ minValue then msgPerformanceLow
  else if r.Performance ≥ maxValue then msgPerformanceHigh
  else if r.Colleagues ≤ minValue then msgColleaguesLow
  else if r.Colleagues ≥ maxValue then msgColleaguesHigh
  else if r.Boss ≤ minValue then msgBossLow
  else if r.Boss ≥ maxValue then msgBossHigh
  else old

/-- Function `checkGameOver`: the returned flag and the updated game. -/
def checkGameOver (g : Game) : Bool × Game :=
  if g.gameOver then (true, g)
  else if g.resources.Motivation ≤ minValue ∨
      g.resources.Performance ≤ minValue ∨
      g.resources.Colleagues ≤ minValue ∨
      g.resources.Boss ≤ minValue ∨
      g.resources.Motivation ≥ maxValue ∨
      g.resources.Performance ≥ maxValue ∨
      g.resources.Colleagues ≥ maxValue ∨
      g.resources.Boss ≥ maxValue then
    (true,
      { g with
        gameOver := true
        state := stateGameOver
        gameOverReason := gameOverReasonFor g.resources g.gameOverReason })
  else (false, g)

/-- Function `updateResources`: scaled deltas, clamping, day increment, game-over check. -/
def updateResources (g : Game) (effects : Effects) : Game :=
  let motivationChange := scaleHalf effects.Motivation
  let performanceChange := scaleHalf effects.Performance
  let colleaguesChange := scale035 effects.Colleagues
  let bossChange := scaleHalf effects.Boss
  let r := g.resources
  let r1 := { r with Motivation := clamp (wrap64 (r.Motivation + motivationChange)) minValue maxValue }
  let r2 := { r1 with
    Performance := clamp (wrap64 (r1.Performance + performanceChange)) minValue maxValue }
  let r3 := { r2 with
    Colleagues := clamp (wrap64 (r2.Colleagues + colleaguesChange)) minValue maxValue }
  let r4 := { r3 with Boss := clamp (wrap64 (r3.Boss + bossChange)) minValue maxValue }
  let r5 := { r4 with Day := wrap64 (r4.Day + 1) }
  (checkGameOver { g with resources := r5 }).2

/-! ## deck.go and game.go: the card pool -/

/-- Store update for `card.Uses = u` through the pointer `p`. -/
def setUses (heap : Nat → Card) (p : Nat) (u : Int) : Nat → Card :=
  fun q => if q = p then { heap q with Uses := u } else heap q

/-- Function `resetAvailableCards`: the pool becomes a copy of the catalog and the
use count of every catalog card is reset. -/
def resetAvailableCards (g : Game) : Game :=
  { g with
    availableCards := g.cards
    heap := g.cards.foldl (fun h p => setUses h p 0) g.heap }

/-- A `for i, x := range xs` loop that returns at the first element satisfying
`p`: the index and the element of the first hit. -/
def firstHit {α : Type} (p : α → Bool) : List α → Option (Nat × α)
  | [] => none
  | x :: xs =>
    if p x then some (0, x)
    else match firstHit p xs with
      | some (i, y) => some (i + 1, y)
      | none => none

/-- Identifier of the win-condition card. -/
def winCardID : String := "COMPETITOR_JOB_OFFER"

/-- Test of the win-card loop: `card.ID == "COMPETITOR_JOB_OFFER" && card.Uses < card.MaxUses`. -/
def isWinCandidate (heap : Nat → Card) (p : Nat) : Bool :=
  decide ((heap p).ID = winCardID) && decide ((heap p).Uses < (heap p).MaxUses)

/-- Test of the delayed-card loop: due, requirements met, uses left. -/
def isDueFollowup (g : Game) (d : FollowupCardItem) : Bool :=
  decide (d.ShowOnDay ≤ g.resources.Day) &&
    (checkRequirements g (g.heap d.Card).Requirements &&
      decide ((g.heap d.Card).Uses < (g.heap d.Card).MaxUses))

/-- Test of the two filter loops of the normal draw: a card with
`card.Uses >= card.MaxUses` is skipped, a card whose requirements fail is skipped
(in the refilter: `card.Uses < card.MaxUses && g.checkRequirements(card.Requirements)`). -/
def isValidCard (g : Game) (p : Nat) : Bool :=
  decide ((g.heap p).Uses < (g.heap p).MaxUses) && checkRequirements g (g.heap p).Requirements

/-- First step of `getNextCard`: with an empty pool, reshuffle and clear the flag. -/
def refillIfEmpty (g : Game) : Game :=
  if g.availableCards.length = 0 then { resetAvailableCards g with winCardShown := false }
  else g

/-- Second step of `getNextCard`, "Check for win condition card": the result when
this branch returns, `none` when control falls through. -/
def winCardBranch (g : Game) : Option (Option Nat × Game) :=
  if g.resources.Day ≥ 70 ∧
      g.resources.Motivation ≥ 70 ∧
      g.resources.Performance ≥ 70 ∧
      g.resources.Colleagues ≥ 70 ∧
      g.resources.Boss ≥ 70 ∧
      g.winCardShown = false then
    match firstHit (isWinCandidate g.heap) g.availableCards with
    | some (i, card) =>
      some (some card,
        { g with
          winCardShown := true
          availableCards := g.availableCards.eraseIdx i
          heap := setUses g.heap card ((g.heap card).Uses + 1) })
    | none => none
  else none

/-- Third step of `getNextCard`, "Check delayed cards first": the result when this
loop returns, `none` when control falls through. -/
def delayedBranch (g : Game) : Option (Option Nat × Game) :=
  match firstHit (isDueFollowup g) g.delayedCards with
  | some (i, delayedCard) =>
    some (some delayedCard.Card,
      { g with
        delayedCards := g.delayedCards.eraseIdx i
        heap := setUses g.heap delayedCard.Card ((g.heap delayedCard.Card).Uses + 1) })
  | none => none

/-- End of `getNextCard`: random selection among `validCards` (non-empty when this
is reached), removal of the first equal pointer from the pool, use increment. -/
def selectCard (g : Game) (validCards : List Nat) (r : Nat) : Option Nat × Game :=
  match validCards[r % validCards.length]? with
  | some selectedCard =>
    (some selectedCard,
      { g with
        availableCards := g.availableCards.erase selectedCard
        heap := setUses g.heap selectedCard ((g.heap selectedCard).Uses + 1) })
  | none => (none, g)

/-- Fourth step of `getNextCard`: filter, reshuffle once when nothing is valid,
refilter, select. -/
def normalDraw (g : Game) (r : Nat) : Option Nat × Game :=
  let validCards := g.availableCards.filter (isValidCard g)
  if validCards.length = 0 then
    let g1 := resetAvailableCards g
    let validCards1 := g1.availableCards.filter (isValidCard g1)
    if validCards1.length = 0 then (none, g1)
    else selectCard g1 validCards1 r
  else selectCard g validCards r

/-- Function `getNextCard`: the returned `*Card` (`none` for nil) and the updated
game; `r` is the value drawn from the random source. -/
def getNextCard (g : Game) (r : Nat) : Option Nat × Game :=
  let g1 := refillIfEmpty g
  match winCardBranch g1 with
  | some res => res
  | none =>
    match delayedBranch g1 with
    | some res => res
    | none => normalDraw g1 r

/-! ## game.go: decisions -/

/-- Function `showWelcomeCard`: allocates the welcome card and makes it current. -/
def showWelcomeCard (g : Game) : Game :=
  let welcomeCard : Card :=
    { ID := "WELCOME", Text := "Hazırsanız başlayalım", IsInfoOnly := true, Effects := {},
      MaxUses := 1 }
  { g with
    heap := fun q => if q = g.heapNext then welcomeCard else g.heap q
    heapNext := g.heapNext + 1
    currentCard := some g.heapNext }

/-- The win message for the competitor offer scenario. -/
def competitorWinMessage : String :=
  "Rakip firmadan gelen teklifi kabul ettiniz ve yeni bir başlangıç yaptınız. Oyunu kazandınız!"

/-- Function `processCard`; `r` is the value drawn by the nested `getNextCard`. -/
def processCard (g : Game) (isYes : Bool) (r : Nat) : Game :=
  match g.currentCard with
  | none => g
  | some cur =>
    if g.gameOver then g
    else
      let currentCard := g.heap cur
      let g1 :=
        if currentCard.ID ≠ "" then { g with playedCardIDs := g.playedCardIDs ++ [currentCard.ID] }
        else g
      if currentCard.ID = winCardID ∧ isYes = true then
        { g1 with gameOver := true, state := stateGameOver, gameOverReason := competitorWinMessage }
      else
        let g2 :=
          if currentCard.IsInfoOnly then updateResources g1 currentCard.Effects
          else if isYes then updateResources g1 currentCard.YesEffects
          else updateResources g1 currentCard.NoEffects
        if !g2.gameOver then
          let res := getNextCard g2 r
          { res.2 with currentCard := res.1 }
        else g2

/-- Function `restartGame`. -/
def restartGame (g : Game) : Game :=
  let g1 := { g with
    resources := { Motivation := 50, Performance := 50, Colleagues := 50, Boss := 50, Day := 1 } }
  let g2 := resetAvailableCards g1
  let g3 := { g2 with
    delayedCards := []
    playedCardIDs := []
    gameOver := false
    winCardShown := false
    state := stateGame }
  showWelcomeCard g3

/-! ## Specification-side vocabulary -/

/-- Spec-side table of §4.2: the eight terminal conditions with their messages, in
the fixed priority order motivation-low, motivation-high, performance-low,
performance-high, colleagues-low, colleagues-high, boss-low, boss-high. -/
def terminalConditions (r : Resources) : List (Bool × String) :=
  [ (decide (r.Motivation = 0), msgMotivationLow),
    (decide (r.Motivation = 100), msgMotivationHigh),
    (decide (r.Performance = 0), msgPerformanceLow),
    (decide (r.Performance = 100), msgPerformanceHigh),
    (decide (r.Colleagues = 0), msgColleaguesLow),
    (decide (r.Colleagues = 100), msgColleaguesHigh),
    (decide (r.Boss = 0), msgBossLow),
    (decide (r.Boss = 100), msgBossHigh) ]

/-- Spec-side: the message of the first satisfied terminal condition, if any. -/
def firstTerminalReason (r : Resources) : Option String :=
  ((terminalConditions r).find? (fun c => c.1)).map (fun c => c.2)

/-- A game in the state of `NewGame` before any card is loaded: 40/40/40/40, day 1. -/
def newGameState : Game :=
  { state := stateGame
    resources := { Motivation := 40, Performance := 40, Colleagues := 40, Boss := 40, Day := 1 }
    cards := []
    availableCards := []
    currentCard := none
    delayedCards := []
    playedCardIDs := []
    gameOver := false
    winCardShown := false
    gameOverReason := ""
    heap := fun _ => {}
    heapNext := 0 }

/-- A requirement node with only the compound fields set. -/
def compoundNode (ty : String) (cs : List Requirement) : Requirement :=
  .mk ty cs "" "" 0

/-- A requirement node with only the leaf fields set. -/
def leafNode (resource comparison : String) (value : Int) : Requirement :=
  .mk "" [] resource comparison value

/-- Spec-side reading of a leaf for one resource: each of the five comparison
names applies its operator to the current value `x` and the threshold. -/
def LeafCompares (g : Game) (resource : String) (x : Int) : Prop :=
  ∀ v : Int,
    checkRequirements g (some (leafNode resource "gt" v)) = decide (x > v) ∧
    checkRequirements g (some (leafNode resource "lt" v)) = decide (x < v) ∧
    checkRequirements g (some (leafNode resource "gte" v)) = decide (x ≥ v) ∧
    checkRequirements g (some (leafNode resource "lte" v)) = decide (x ≤ v) ∧
    checkRequirements g (some (leafNode resource "eq" v)) = decide (x = v)

/-! ## Runs of consecutive `getNextCard` calls -/

/-- A run of consecutive `getNextCard` calls, as the state and the random value
at the moment of each call. A step gives the resources in force at that call
(between two calls the decisions played may have changed them; nothing else that
`getNextCard` reads is changed in between, short of a restart) and the value
drawn from the random source. -/
def callTrace : Game → List (Resources × Nat) → List (Game × Nat)
  | _, [] => []
  | g, s :: rest =>
    ({ g with resources := s.1 }, s.2) ::
      callTrace (getNextCard { g with resources := s.1 } s.2).2 rest

/-- The call is answered by the win-card branch. -/
def takesWinBranch (c : Game × Nat) : Bool :=
  (winCardBranch (refillIfEmpty c.1)).isSome

/-- The call returns a card whose id is COMPETITOR_JOB_OFFER. -/
def returnsWinCard (c : Game × Nat) : Bool :=
  match (getNextCard c.1 c.2).1 with
  | some p => decide ((c.1.heap p).ID = winCardID)
  | none => false

/-- The call reshuffles: its pool is empty at the start, or it reaches the normal
draw and finds no valid card. -/
def reshuffles (c : Game × Nat) : Bool :=
  c.1.availableCards.isEmpty ||
    ((winCardBranch c.1).isNone && ((delayedBranch c.1).isNone &&
      (c.1.availableCards.filter (isValidCard c.1)).isEmpty))

/-- No card with the win id is left in the pool or among the pending followups. -/
def NoWinCardLeft (g : Game) : Prop :=
  (∀ q ∈ g.availableCards, (g.heap q).ID ≠ winCardID) ∧
  (∀ d ∈ g.delayedCards, (g.heap d.Card).ID ≠ winCardID)

/-! ## Example sessions -/

/-- A store holding the listed cards at the addresses 0, 1, 2, ... -/
def storeOf (cs : List Card) : Nat → Card :=
  fun q => cs.getD q {}

/-- A one-card catalog whose card has been drawn: the pool is exhausted and the
card's use counter equals its maximum-use count. -/
def exhaustedDeck : Game :=
  { newGameState with
    cards := [0]
    availableCards := []
    heap := storeOf [{ ID := "COFFEE_BREAK", MaxUses := 1, Uses := 1 }]
    heapNext := 1 }

/-- A two-card pool in which the first card is used up and the second is not. -/
def partlyUsedDeck : Game :=
  { newGameState with
    cards := [0, 1]
    availableCards := [0, 1]
    heap := storeOf [{ ID := "OVERTIME_REQUEST", MaxUses := 1, Uses := 1 },
      { ID := "COFFEE_BREAK", MaxUses := 3, Uses := 0 }]
    heapNext := 2 }

/-- Resources at the win threshold: day 70 and the four stats at exactly 70. -/
def thresholdResources : Resources :=
  { Motivation := 70, Performance := 70, Colleagues := 70, Boss := 70, Day := 70 }

/-- At the win threshold, a catalog whose win card was drawn once before (it
allows two uses) and is no longer in the available pool. -/
def winCardDrawnDeck : Game :=
  { newGameState with
    resources := thresholdResources
    cards := [0, 1]
    availableCards := [1]
    heap := storeOf [{ ID := "COMPETITOR_JOB_OFFER", MaxUses := 2, Uses := 1 },
      { ID := "COFFEE_BREAK", MaxUses := 3, Uses := 0 }]
    heapNext := 2 }

/-- At the win threshold, a fresh pool that holds the win card. -/
def winCardReadyDeck : Game :=
  { newGameState with
    resources := thresholdResources
    cards := [0, 1]
    availableCards := [0, 1]
    heap := storeOf [{ ID := "COFFEE_BREAK", MaxUses := 3, Uses := 0 },
      { ID := "COMPETITOR_JOB_OFFER", MaxUses := 1, Uses := 0,
        Requirements := some (leafNode "day" "gte" 200) }]
    heapNext := 2 }

/-- At the win threshold, a pool holding the win card and a card whose
requirement (day below 10) can no longer be met. -/
def winCardAgainDeck : Game :=
  { newGameState with
    resources := thresholdResources
    cards := [0, 1]
    availableCards := [0, 1]
    heap := storeOf [{ ID := "COMPETITOR_JOB_OFFER", MaxUses := 1, Uses := 0 },
      { ID := "ONBOARDING", MaxUses := 1, Uses := 0,
        Requirements := some (leafNode "day" "lt" 10) }]
    heapNext := 2 }

/-- Spec-side: the integer obtained by truncating 0.5 times the delta. -/
def truncHalf (x : Int) : Int := Int.tdiv x 2

/-- Spec-side: the integer obtained by truncating 0.35 times the delta. -/
def trunc035 (x : Int) : Int := Int.tdiv (35 * x) 100

/-- The value fits a Go `int`. -/
def InInt64 (x : Int) : Prop := -2 ^ 63 ≤ x ∧ x < 2 ^ 63

/-- A session at day 1 with colleagues at 10 and the other stats at 40. -/
def lowColleaguesState : Game :=
  { newGameState with
    resources := { Motivation := 40, Performance := 40, Colleagues := 10, Boss := 40, Day := 1 } }

/-- A session showing the competitor offer (address 0) at the win threshold. -/
def offerShownDeck : Game :=
  { newGameState with
    resources := thresholdResources
    cards := [0, 1]
    availableCards := [1]
    currentCard := some 0
    winCardShown := true
    heap := storeOf [
      { ID := "COMPETITOR_JOB_OFFER", MaxUses := 1, Uses := 1,
        YesEffects := { Motivation := 10 }, NoEffects := { Boss := 10 } },
      { ID := "COFFEE_BREAK", MaxUses := 3, Uses := 0 }]
    heapNext := 2 }

/-- The "Record card ID" step of `processCard` for the current card `cur`. -/
def recordPlayed (g : Game) (cur : Nat) : Game :=
  if (g.heap cur).ID ≠ "" then { g with playedCardIDs := g.playedCardIDs ++ [(g.heap cur).ID] }
  else g

/-- The effect set chosen by the "Apply effects" step of `processCard`. -/
def decisionEffects (c : Card) (isYes : Bool) : Effects :=
  if c.IsInfoOnly then c.Effects
  else if isYes then c.YesEffects
  else c.NoEffects

/-- The session after the "Apply effects" step of `processCard`, before the next
card is requested. -/
def afterEffects (g : Game) (cur : Nat) (isYes : Bool) : Game :=
  updateResources (recordPlayed g cur) (decisionEffects (g.heap cur) isYes)

/-- A session showing an info-only card that carries the id of the competitor
offer. -/
def infoOfferDeck : Game :=
  { newGameState with
    cards := [0, 1]
    availableCards := [1]
    currentCard := some 0
    heap := storeOf [
      { ID := "COMPETITOR_JOB_OFFER", IsInfoOnly := true, MaxUses := 1, Uses := 1 },
      { ID := "COFFEE_BREAK", MaxUses := 3, Uses := 0 }]
    heapNext := 2 }

/-- A session showing an ordinary info-only card. -/
def infoCardDeck : Game :=
  { newGameState with
    cards := [0, 1]
    availableCards := [1]
    currentCard := some 0
    heap := storeOf [
      { ID := "PAYDAY", IsInfoOnly := true, Effects := { Motivation := 10 }, MaxUses := 1,
        Uses := 1 },
      { ID := "COFFEE_BREAK", MaxUses := 3, Uses := 0 }]
    heapNext := 2 }

/-- At day 2, a one-card catalog whose card, now shown, requires a day below 3. -/
def deadEndDeck : Game :=
  { newGameState with
    resources := { Motivation := 40, Performance := 40, Colleagues := 40, Boss := 40, Day := 2 }
    cards := [0]
    availableCards := []
    currentCard := some 0
    heap := storeOf [
      { ID := "ONBOARDING", MaxUses := 1, Uses := 1,
        Requirements := some (leafNode "day" "lt" 3) }]
    heapNext := 1 }

/-- At day 2, a session showing a card whose yes decision names a followup. -/
def followupDeck : Game :=
  { newGameState with
    resources := { Motivation := 40, Performance := 40, Colleagues := 40, Boss := 40, Day := 2 }
    cards := [0, 1, 2]
    availableCards := [1, 2]
    currentCard := some 0
    heap := storeOf [
      { ID := "OVERTIME_REQUEST", MaxUses := 1, Uses := 1,
        YesEffects := { Performance := 10 },
        YesFollowup := some (.obj [("id", .str "OVERTIME_FOLLOWUP"), ("delay", .num 3)]) },
      { ID := "COFFEE_BREAK", MaxUses := 3, Uses := 0 },
      { ID := "OVERTIME_FOLLOWUP", MaxUses := 1, Uses := 0,
        Requirements := some (leafNode "day" "gte" 200) }]
    heapNext := 3 }

/-- At day 3 the pool holds only a card that requires a day below 3; the other
card of the catalog was drawn earlier in the cycle and is used up. -/
def noValidDeck : Game :=
  { newGameState with
    resources := { Motivation := 40, Performance := 40, Colleagues := 40, Boss := 40, Day := 3 }
    cards := [0, 1]
    availableCards := [0]
    heap := storeOf [
      { ID := "ONBOARDING", MaxUses := 1, Uses := 0,
        Requirements := some (leafNode "day" "lt" 3) },
      { ID := "COFFEE_BREAK", MaxUses := 1, Uses := 1 }]
    heapNext := 2 }

/-- Use-count invariant: every card of the catalog and of the pending followup
list has a non-negative maximum-use count and a use counter that does not exceed
it. -/
def UsesBounded (g : Game) : Prop :=
  ∀ q, (q ∈ g.cards ∨ ∃ d ∈ g.delayedCards, d.Card = q) →
    0 ≤ (g.heap q).MaxUses ∧ (g.heap q).Uses ≤ (g.heap q).MaxUses

/-- How an operation may change the use counter of a card: not at all, back to
0, up by one from a value strictly below the maximum-use count, or back to 0 and
then up by one with a positive maximum-use count. -/
def UsesStep (g g2 : Game) : Prop :=
  ∀ q, (g2.heap q).Uses = (g.heap q).Uses ∨
    (g2.heap q).Uses = 0 ∨
    ((g2.heap q).Uses = (g.heap q).Uses + 1 ∧ (g.heap q).Uses < (g.heap q).MaxUses) ∨
    ((g2.heap q).Uses = 1 ∧ 0 < (g.heap q).MaxUses)

/-- The store `h` is the store of `g`, possibly after reshuffles: maximum-use
counts are those of `g`, a use counter is that of `g` or, for a catalog card, 0. -/
def ResetOf (g : Game) (h : Nat → Card) : Prop :=
  ∀ q, (h q).MaxUses = (g.heap q).MaxUses ∧
    ((h q).Uses = (g.heap q).Uses ∨ (q ∈ g.cards ∧ (h q).Uses = 0))

/-- A session that ended on the motivation floor while showing a card that still
has effects and a pool to draw from. -/
def gameOverDeck : Game :=
  { newGameState with
    state := stateGameOver
    resources := { Motivation := 0, Performance := 40, Colleagues := 40, Boss := 40, Day := 7 }
    cards := [0, 1]
    availableCards := [1]
    currentCard := some 0
    playedCardIDs := ["WELCOME", "COFFEE_BREAK"]
    gameOver := true
    gameOverReason := msgMotivationLow
    heap := storeOf [
      { ID := "OVERTIME_REQUEST", MaxUses := 1, Uses := 1,
        YesEffects := { Motivation := 20 }, NoEffects := { Boss := -10 } },
      { ID := "COFFEE_BREAK", MaxUses := 3, Uses := 0 }]
    heapNext := 2 }

/-- A session that is not over but shows no card (nil current card). -/
def noCardDeck : Game :=
  { newGameState with
    resources := { Motivation := 40, Performance := 40, Colleagues := 40, Boss := 40, Day := 3 }
    cards := [0]
    availableCards := [0]
    currentCard := none
    playedCardIDs := ["ONBOARDING"]
    heap := storeOf [{ ID := "ONBOARDING", MaxUses := 1, Uses := 0 }]
    heapNext := 1 }

/-- The welcome card allocated by `showWelcomeCard`. -/
def welcomeCard : Card :=
  { ID := "WELCOME", Text := "Hazırsanız başlayalım", IsInfoOnly := true, Effects := {},
    MaxUses := 1 }

/-- The session after `loadCards` on a deck of one card without effects. -/
def oneCardDeck : Game :=
  { newGameState with
    cards := [0]
    availableCards := [0]
    heap := storeOf [{ ID := "COFFEE_BREAK", MaxUses := 1 }]
    heapNext := 1 }

/-- The session returned by `NewGame` for the one-card deck: 40/40/40/40, day 1,
the welcome card shown. -/
def oneCardNewGame : Game := showWelcomeCard oneCardDeck

/-- The one-card session at day `d` with play history `hist`: the card is shown
and the pool is exhausted. -/
def longRunState (d : Int) (hist : List String) : Game :=
  { newGameState with
    resources := { Motivation := 40, Performance := 40, Colleagues := 40, Boss := 40, Day := d }
    cards := [0]
    availableCards := []
    currentCard := some 0
    playedCardIDs := hist
    heap := storeOf [{ ID := "COFFEE_BREAK", MaxUses := 1, Uses := 1 }, welcomeCard]
    heapNext := 2 }

/-- The session after `n` further no decisions (random value 0 at each draw). -/
def decideTimes : Nat → Game → Game
  | 0, g => g
  | n + 1, g => decideTimes n (processCard g false 0)

/-- The one-card session when the day counter holds the largest Go `int`. -/
def maxDayState : Game :=
  longRunState (2 ^ 63 - 1) ("WELCOME" :: List.replicate (2 ^ 63 - 3) "COFFEE_BREAK")

/-- The available pool holds catalog cards only, as in every session the code
builds: the pool is a copy of the catalog from which cards are removed. -/
def PoolInCatalog (g : Game) : Prop :=
  ∀ q ∈ g.availableCards, q ∈ g.cards

/-! ## Lemmas: resources -/

theorem clamp_bounds (v : Int) : 0 ≤ clamp v minValue maxValue ∧ clamp v minValue maxValue ≤ 100 := by
  unfold clamp minValue maxValue
  split_ifs <;> omega

theorem checkGameOver_resources (g : Game) : (checkGameOver g).2.resources = g.resources := by
  unfold checkGameOver
  split_ifs <;> rfl

theorem updateResources_resources (g : Game) (e : Effects) :
    (updateResources g e).resources =
      { Motivation := clamp (wrap64 (g.resources.Motivation + scaleHalf e.Motivation)) minValue maxValue
        Performance :=
          clamp (wrap64 (g.resources.Performance + scaleHalf e.Performance)) minValue maxValue
        Colleagues := clamp (wrap64 (g.resources.Colleagues + scale035 e.Colleagues)) minValue maxValue
        Boss := clamp (wrap64 (g.resources.Boss + scaleHalf e.Boss)) minValue maxValue
        Day := wrap64 (g.resources.Day + 1) } := by
  unfold updateResources
  simp only [checkGameOver_resources]

/-- After `updateResources` the four stats are clamped. -/
theorem updateResources_bounds (g : Game) (e : Effects) :
    (0 ≤ (updateResources g e).resources.Motivation ∧
      (updateResources g e).resources.Motivation ≤ 100) ∧
    (0 ≤ (updateResources g e).resources.Performance ∧
      (updateResources g e).resources.Performance ≤ 100) ∧
    (0 ≤ (updateResources g e).resources.Colleagues ∧
      (updateResources g e).resources.Colleagues ≤ 100) ∧
    (0 ≤ (updateResources g e).resources.Boss ∧
      (updateResources g e).resources.Boss ≤ 100) := by
  rw [updateResources_resources]
  exact ⟨clamp_bounds _, clamp_bounds _, clamp_bounds _, clamp_bounds _⟩

/-- What `checkGameOver` does to a game that is not over and whose stats are in
range: flag, state and reason. -/
theorem checkGameOver_spec (g : Game) (h : g.gameOver = false)
    (hM : 0 ≤ g.resources.Motivation ∧ g.resources.Motivation ≤ 100)
    (hP : 0 ≤ g.resources.Performance ∧ g.resources.Performance ≤ 100)
    (hC : 0 ≤ g.resources.Colleagues ∧ g.resources.Colleagues ≤ 100)
    (hB : 0 ≤ g.resources.Boss ∧ g.resources.Boss ≤ 100) :
    ((checkGameOver g).2.gameOver = true ↔
      (g.resources.Motivation = 0 ∨ g.resources.Motivation = 100 ∨
       g.resources.Performance = 0 ∨ g.resources.Performance = 100 ∨
       g.resources.Colleagues = 0 ∨ g.resources.Colleagues = 100 ∨
       g.resources.Boss = 0 ∨ g.resources.Boss = 100)) ∧
    ((checkGameOver g).2.gameOver = true →
      (checkGameOver g).2.state = stateGameOver ∧
      some (checkGameOver g).2.gameOverReason = firstTerminalReason g.resources) := by
  obtain ⟨m, p, c, b, d, hr⟩ : ∃ m p c b d, g.resources = ⟨m, p, c, b, d⟩ :=
    ⟨_, _, _, _, _, rfl⟩
  rw [hr] at hM hP hC hB
  simp only at hM hP hC hB
  have eM0 : m ≤ 0 ↔ m = 0 := by omega
  have eM1 : m ≥ 100 ↔ m = 100 := by omega
  have eP0 : p ≤ 0 ↔ p = 0 := by omega
  have eP1 : p ≥ 100 ↔ p = 100 := by omega
  have eC0 : c ≤ 0 ↔ c = 0 := by omega
  have eC1 : c ≥ 100 ↔ c = 100 := by omega
  have eB0 : b ≤ 0 ↔ b = 0 := by omega
  have eB1 : b ≥ 100 ↔ b = 100 := by omega
  unfold checkGameOver gameOverReasonFor firstTerminalReason terminalConditions minValue maxValue
  simp only [h, hr, Bool.false_eq_true, if_false, eM0, eM1, eP0, eP1, eC0, eC1, eB0, eB1]
  by_cases h1 : m = 0 <;> by_cases h2 : m = 100 <;> by_cases h3 : p = 0 <;>
    by_cases h4 : p = 100 <;> by_cases h5 : c = 0 <;> by_cases h6 : c = 100 <;>
    by_cases h7 : b = 0 <;> by_cases h8 : b = 100 <;>
    simp [h, h1, h2, h3, h4, h5, h6, h7, h8, List.find?]

/-! ## Lemmas: requirements -/

theorem checkAll_iff (res : Resources) (cs : List Requirement) :
    checkAll res cs = true ↔ ∀ c ∈ cs, checkReq res c = true := by
  induction cs with
  | nil => simp [checkAll]
  | cons c cs ih =>
    rw [checkAll]
    by_cases hc : checkReq res c = true <;> simp [hc, ih]

theorem checkAny_iff (res : Resources) (cs : List Requirement) :
    checkAny res cs = true ↔ ∃ c ∈ cs, checkReq res c = true := by
  induction cs with
  | nil => simp [checkAny]
  | cons c cs ih =>
    rw [checkAny]
    by_cases hc : checkReq res c = true <;> simp [hc, ih]

theorem checkReq_and (res : Resources) (cs : List Requirement) (r c : String) (v : Int)
    (h : cs ≠ []) : checkReq res (.mk "and" cs r c v) = checkAll res cs := by
  have hl : cs.length > 0 := List.length_pos.mpr h
  rw [checkReq]
  simp [hl]

theorem checkReq_or (res : Resources) (cs : List Requirement) (r c : String) (v : Int)
    (h : cs ≠ []) : checkReq res (.mk "or" cs r c v) = checkAny res cs := by
  have hl : cs.length > 0 := List.length_pos.mpr h
  rw [checkReq]
  simp [hl]

/-- A node without the compound shape is decided by its leaf fields alone. -/
theorem checkReq_not_compound (res : Resources) (ty : String) (cs : List Requirement)
    (r c : String) (v : Int) (h : ¬ (ty ≠ "" ∧ cs ≠ [])) :
    checkReq res (.mk ty cs r c v) =
      if r ≠ "" ∧ c ≠ "" then
        if r = "motivation" then compareWith c res.Motivation v
        else if r = "performance" then compareWith c res.Performance v
        else if r = "colleagues" then compareWith c res.Colleagues v
        else if r = "boss" then compareWith c res.Boss v
        else if r = "day" then compareWith c res.Day v
        else false
      else false := by
  have h1 : ¬ (ty ≠ "" ∧ cs.length > 0 ∧ ty = "and") := by
    rintro ⟨a, b, -⟩; exact h ⟨a, List.length_pos.mp b⟩
  have h2 : ¬ (ty ≠ "" ∧ cs.length > 0 ∧ ty = "or") := by
    rintro ⟨a, b, -⟩; exact h ⟨a, List.length_pos.mp b⟩
  rw [checkReq, if_neg h1, if_neg h2]

/-! ## Lemmas: the card pool -/

theorem firstHit_some {α : Type} (p : α → Bool) (xs : List α) (i : Nat) (x : α)
    (h : firstHit p xs = some (i, x)) :
    x ∈ xs ∧ p x = true ∧ xs[i]? = some x := by
  induction xs generalizing i with
  | nil => simp [firstHit] at h
  | cons y ys ih =>
    rw [firstHit] at h
    by_cases hy : p y = true
    · rw [if_pos hy] at h
      simp only [Option.some.injEq, Prod.mk.injEq] at h
      obtain ⟨rfl, rfl⟩ := h
      simp [hy]
    · rw [if_neg hy] at h
      cases hrec : firstHit p ys with
      | none => rw [hrec] at h; simp at h
      | some res =>
        obtain ⟨j, z⟩ := res
        rw [hrec] at h
        simp only [Option.some.injEq, Prod.mk.injEq] at h
        obtain ⟨rfl, rfl⟩ := h
        obtain ⟨h1, h2, h3⟩ := ih j hrec
        exact ⟨List.mem_cons_of_mem _ h1, h2, by simpa using h3⟩

theorem firstHit_none_iff {α : Type} (p : α → Bool) (xs : List α) :
    firstHit p xs = none ↔ ∀ x ∈ xs, p x = false := by
  induction xs with
  | nil => simp [firstHit]
  | cons y ys ih =>
    rw [firstHit]
    by_cases hy : p y = true
    · simp [hy]
    · rw [if_neg hy]
      cases hrec : firstHit p ys with
      | none =>
        have := ih.mp hrec
        simp only [List.mem_cons, forall_eq_or_imp, true_iff]
        exact ⟨by simpa using hy, this⟩
      | some res =>
        obtain ⟨j, z⟩ := res
        simp only [List.mem_cons, forall_eq_or_imp, false_iff, not_and, reduceCtorEq]
        intro _ hall
        rw [ih.mpr hall] at hrec
        simp at hrec

theorem setUses_apply (heap : Nat → Card) (p : Nat) (u : Int) (q : Nat) :
    setUses heap p u q = if q = p then { heap q with Uses := u } else heap q := rfl

theorem resetHeap_apply (cards : List Nat) (heap : Nat → Card) (q : Nat) :
    cards.foldl (fun h p => setUses h p 0) heap q =
      if q ∈ cards then { heap q with Uses := 0 } else heap q := by
  induction cards generalizing heap with
  | nil => simp
  | cons c cs ih =>
    rw [List.foldl_cons, ih]
    by_cases hq : q = c
    · subst hq
      by_cases hm : q ∈ cs <;> simp [hm, setUses]
    · by_cases hm : q ∈ cs <;> simp [hm, hq, setUses]

theorem resetAvailableCards_heap (g : Game) (q : Nat) :
    (resetAvailableCards g).heap q =
      if q ∈ g.cards then { g.heap q with Uses := 0 } else g.heap q :=
  resetHeap_apply g.cards g.heap q

theorem resetAvailableCards_maxUses (g : Game) (q : Nat) :
    ((resetAvailableCards g).heap q).MaxUses = (g.heap q).MaxUses := by
  rw [resetAvailableCards_heap]; split_ifs <;> rfl

theorem resetAvailableCards_uses_of_mem (g : Game) (q : Nat) (h : q ∈ g.cards) :
    ((resetAvailableCards g).heap q).Uses = 0 := by
  rw [resetAvailableCards_heap, if_pos h]

theorem resetAvailableCards_heap_of_not_mem (g : Game) (q : Nat) (h : q ∉ g.cards) :
    (resetAvailableCards g).heap q = g.heap q := by
  rw [resetAvailableCards_heap, if_neg h]

/-- What a firing win-card branch returns. -/
theorem winCardBranch_some (g : Game) (res : Option Nat × Game)
    (h : winCardBranch g = some res) :
    g.winCardShown = false ∧
    ∃ i card, firstHit (isWinCandidate g.heap) g.availableCards = some (i, card) ∧
      res = (some card,
        { g with
          winCardShown := true
          availableCards := g.availableCards.eraseIdx i
          heap := setUses g.heap card ((g.heap card).Uses + 1) }) := by
  unfold winCardBranch at h
  split_ifs at h with hc
  cases hf : firstHit (isWinCandidate g.heap) g.availableCards with
  | none => rw [hf] at h; simp at h
  | some hit =>
    obtain ⟨i, card⟩ := hit
    rw [hf] at h
    simp only [Option.some.injEq] at h
    exact ⟨hc.2.2.2.2.2, i, card, rfl, h.symm⟩

/-- What a firing delayed-card branch returns. -/
theorem delayedBranch_some (g : Game) (res : Option Nat × Game)
    (h : delayedBranch g = some res) :
    ∃ i d, firstHit (isDueFollowup g) g.delayedCards = some (i, d) ∧
      res = (some d.Card,
        { g with
          delayedCards := g.delayedCards.eraseIdx i
          heap := setUses g.heap d.Card ((g.heap d.Card).Uses + 1) }) := by
  unfold delayedBranch at h
  cases hf : firstHit (isDueFollowup g) g.delayedCards with
  | none => rw [hf] at h; simp at h
  | some hit =>
    obtain ⟨i, d⟩ := hit
    rw [hf] at h
    simp only [Option.some.injEq] at h
    exact ⟨i, d, rfl, h.symm⟩

/-- The random selection picks a member of a non-empty `validCards`. -/
theorem selectCard_of_ne_nil (g : Game) (validCards : List Nat) (r : Nat)
    (h : validCards ≠ []) :
    ∃ sel ∈ validCards, selectCard g validCards r =
      (some sel,
        { g with
          availableCards := g.availableCards.erase sel
          heap := setUses g.heap sel ((g.heap sel).Uses + 1) }) := by
  have hl : r % validCards.length < validCards.length :=
    Nat.mod_lt _ (List.length_pos.mpr h)
  refine ⟨validCards[r % validCards.length], List.getElem_mem _, ?_⟩
  unfold selectCard
  rw [List.getElem?_eq_getElem hl]

/-- The three outcomes of the normal draw. -/
theorem normalDraw_cases (g : Game) (r : Nat) :
    (g.availableCards.filter (isValidCard g) ≠ [] ∧
      ∃ sel ∈ g.availableCards.filter (isValidCard g), normalDraw g r =
        (some sel,
          { g with
            availableCards := g.availableCards.erase sel
            heap := setUses g.heap sel ((g.heap sel).Uses + 1) })) ∨
    (g.availableCards.filter (isValidCard g) = [] ∧
      g.cards.filter (isValidCard (resetAvailableCards g)) ≠ [] ∧
      ∃ sel ∈ g.cards.filter (isValidCard (resetAvailableCards g)), normalDraw g r =
        (some sel,
          { resetAvailableCards g with
            availableCards := g.cards.erase sel
            heap := setUses (resetAvailableCards g).heap sel
              (((resetAvailableCards g).heap sel).Uses + 1) })) ∨
    (g.availableCards.filter (isValidCard g) = [] ∧
      g.cards.filter (isValidCard (resetAvailableCards g)) = [] ∧
      normalDraw g r = (none, resetAvailableCards g)) := by
  unfold normalDraw
  by_cases h1 : g.availableCards.filter (isValidCard g) = []
  · by_cases h2 : g.cards.filter (isValidCard (resetAvailableCards g)) = []
    · right; right
      refine ⟨h1, h2, ?_⟩
      have e : (resetAvailableCards g).availableCards = g.cards := rfl
      simp only [h1, e, h2, List.length_nil, if_true]
    · right; left
      refine ⟨h1, h2, ?_⟩
      obtain ⟨sel, hsel, he⟩ := selectCard_of_ne_nil (resetAvailableCards g) _ r h2
      refine ⟨sel, hsel, ?_⟩
      have e : (resetAvailableCards g).availableCards = g.cards := rfl
      have hl : ¬ (g.cards.filter (isValidCard (resetAvailableCards g))).length = 0 := by
        simpa using h2
      simp only [h1, e, List.length_nil, if_true, if_neg hl]
      exact he
  · left
    refine ⟨h1, ?_⟩
    obtain ⟨sel, hsel, he⟩ := selectCard_of_ne_nil g _ r h1
    refine ⟨sel, hsel, ?_⟩
    have hl : ¬ (g.availableCards.filter (isValidCard g)).length = 0 := by
      simpa using h1
    simp only [if_neg hl]
    exact he

theorem refillIfEmpty_of_ne_nil (g : Game) (h : g.availableCards ≠ []) :
    refillIfEmpty g = g := by
  unfold refillIfEmpty
  rw [if_neg (by simpa using h)]

theorem refillIfEmpty_of_nil (g : Game) (h : g.availableCards = []) :
    refillIfEmpty g = { resetAvailableCards g with winCardShown := false } := by
  unfold refillIfEmpty
  rw [if_pos (by simp [h])]

/-- The state in which `getNextCard` selects the card it returns: the state after
the initial refill, or that state reshuffled once because it held no valid card.
The selected card has uses left in that state and comes from its pool or, in the
first case, from a due followup. -/
theorem getNextCard_some (g : Game) (r p : Nat) (h : (getNextCard g r).1 = some p) :
    ∃ gs : Game,
      (gs = refillIfEmpty g ∨
        (gs = resetAvailableCards (refillIfEmpty g) ∧
          (refillIfEmpty g).availableCards.filter (isValidCard (refillIfEmpty g)) = [])) ∧
      (gs.heap p).Uses < (gs.heap p).MaxUses ∧
      (p ∈ gs.availableCards ∨
        (gs = refillIfEmpty g ∧ ∃ d ∈ gs.delayedCards, d.Card = p ∧ isDueFollowup gs d = true)) := by
  simp only [getNextCard] at h
  cases hw : winCardBranch (refillIfEmpty g) with
  | some res =>
    rw [hw] at h
    obtain ⟨-, i, card, hf, rfl⟩ := winCardBranch_some _ _ hw
    simp only [Option.some.injEq] at h
    subst h
    obtain ⟨hm, hp, -⟩ := firstHit_some _ _ _ _ hf
    simp only [isWinCandidate, Bool.and_eq_true, decide_eq_true_eq] at hp
    exact ⟨refillIfEmpty g, Or.inl rfl, hp.2, Or.inl hm⟩
  | none =>
    rw [hw] at h
    cases hd : delayedBranch (refillIfEmpty g) with
    | some res =>
      rw [hd] at h
      obtain ⟨i, d, hf, rfl⟩ := delayedBranch_some _ _ hd
      simp only [Option.some.injEq] at h
      subst h
      obtain ⟨hm, hp, -⟩ := firstHit_some _ _ _ _ hf
      have hp2 := hp
      simp only [isDueFollowup, Bool.and_eq_true, decide_eq_true_eq] at hp2
      exact ⟨refillIfEmpty g, Or.inl rfl, hp2.2.2, Or.inr ⟨rfl, d, hm, rfl, hp⟩⟩
    | none =>
      rw [hd] at h
      simp only at h
      rcases normalDraw_cases (refillIfEmpty g) r with
        ⟨-, sel, hsel, he⟩ | ⟨h1, -, sel, hsel, he⟩ | ⟨-, -, he⟩
      · rw [he] at h
        simp only [Option.some.injEq] at h
        subst h
        rw [List.mem_filter] at hsel
        have hv := hsel.2
        simp only [isValidCard, Bool.and_eq_true, decide_eq_true_eq] at hv
        exact ⟨refillIfEmpty g, Or.inl rfl, hv.1, Or.inl hsel.1⟩
      · rw [he] at h
        simp only [Option.some.injEq] at h
        subst h
        rw [List.mem_filter] at hsel
        have hv := hsel.2
        simp only [isValidCard, Bool.and_eq_true, decide_eq_true_eq] at hv
        exact ⟨resetAvailableCards (refillIfEmpty g), Or.inr ⟨rfl, h1⟩, hv.1, Or.inl hsel.1⟩
      · rw [he] at h
        simp at h

theorem refillIfEmpty_cards (g : Game) : (refillIfEmpty g).cards = g.cards := by
  unfold refillIfEmpty
  split_ifs <;> rfl

/-- The store after the initial refill: untouched, or reset on the catalog. -/
theorem refillIfEmpty_heap (g : Game) (q : Nat) :
    (refillIfEmpty g).heap q =
      if g.availableCards = [] ∧ q ∈ g.cards then { g.heap q with Uses := 0 } else g.heap q := by
  by_cases h : g.availableCards = []
  · rw [refillIfEmpty_of_nil g h]
    show (resetAvailableCards g).heap q = _
    rw [resetAvailableCards_heap]
    simp [h]
  · rw [refillIfEmpty_of_ne_nil g h]
    simp [h]

/-- A card whose use counter has reached its maximum-use count when `getNextCard`
is called is returned only after a reshuffle of that call has zeroed its counter:
the available pool then holds no valid card at the call (it is empty or nothing
in it is eligible), the card belongs to the catalog and its maximum-use count is
positive. -/
theorem getNextCard_exhausted_returned (g : Game) (r p : Nat)
    (hex : (g.heap p).MaxUses ≤ (g.heap p).Uses)
    (hret : (getNextCard g r).1 = some p) :
    g.availableCards.filter (isValidCard g) = [] ∧ p ∈ g.cards ∧ 0 < (g.heap p).MaxUses := by
  obtain ⟨gs, hgs, huses, -⟩ := getNextCard_some g r p hret
  have hheap : ∀ g0 : Game, g0.cards = g.cards →
      ((g0.heap p).MaxUses = (g.heap p).MaxUses) →
      ((g0.heap p).Uses = (g.heap p).Uses ∨ (p ∈ g.cards ∧ (g0.heap p).Uses = 0)) →
      ((resetAvailableCards g0).heap p).Uses < ((resetAvailableCards g0).heap p).MaxUses →
      p ∈ g.cards ∧ 0 < (g.heap p).MaxUses := by
    intro g0 hc hm hu hlt
    rw [resetAvailableCards_maxUses, hm] at hlt
    by_cases hp : p ∈ g.cards
    · rw [resetAvailableCards_uses_of_mem _ _ (hc ▸ hp)] at hlt
      exact ⟨hp, hlt⟩
    · rw [resetAvailableCards_heap_of_not_mem _ _ (hc ▸ hp)] at hlt
      rcases hu with hu | hu
      · omega
      · exact absurd hu.1 hp
  by_cases hpool : g.availableCards = []
  · have hfil : g.availableCards.filter (isValidCard g) = [] := by rw [hpool]; rfl
    have hre := refillIfEmpty_of_nil g hpool
    rcases hgs with rfl | ⟨rfl, -⟩
    · rw [hre] at huses
      exact ⟨hfil, hheap g rfl rfl (Or.inl rfl) huses⟩
    · rw [hre] at huses
      have := hheap { resetAvailableCards g with winCardShown := false } rfl
        (resetAvailableCards_maxUses g p)
        (by
          by_cases hp : p ∈ g.cards
          · exact Or.inr ⟨hp, resetAvailableCards_uses_of_mem g p hp⟩
          · exact Or.inl (by
              show ((resetAvailableCards g).heap p).Uses = _
              rw [resetAvailableCards_heap_of_not_mem g p hp]))
        huses
      exact ⟨hfil, this⟩
  · have hre := refillIfEmpty_of_ne_nil g hpool
    rcases hgs with rfl | ⟨rfl, hfil⟩
    · rw [hre] at huses
      omega
    · rw [hre] at huses hfil
      exact ⟨hfil, hheap g rfl rfl (Or.inl rfl) huses⟩

/-- The branch of `getNextCard` that produces the result, with the result. -/
theorem getNextCard_cases (g : Game) (r : Nat) :
    (∃ i card, (refillIfEmpty g).winCardShown = false ∧
      firstHit (isWinCandidate (refillIfEmpty g).heap) (refillIfEmpty g).availableCards =
        some (i, card) ∧
      getNextCard g r = (some card,
        { refillIfEmpty g with
          winCardShown := true
          availableCards := (refillIfEmpty g).availableCards.eraseIdx i
          heap := setUses (refillIfEmpty g).heap card (((refillIfEmpty g).heap card).Uses + 1) })) ∨
    (winCardBranch (refillIfEmpty g) = none ∧
      ∃ i d, firstHit (isDueFollowup (refillIfEmpty g)) (refillIfEmpty g).delayedCards =
        some (i, d) ∧
      getNextCard g r = (some d.Card,
        { refillIfEmpty g with
          delayedCards := (refillIfEmpty g).delayedCards.eraseIdx i
          heap := setUses (refillIfEmpty g).heap d.Card
            (((refillIfEmpty g).heap d.Card).Uses + 1) })) ∨
    (winCardBranch (refillIfEmpty g) = none ∧ delayedBranch (refillIfEmpty g) = none ∧
      getNextCard g r = normalDraw (refillIfEmpty g) r) := by
  simp only [getNextCard]
  cases hw : winCardBranch (refillIfEmpty g) with
  | some res =>
    obtain ⟨hflag, i, card, hf, rfl⟩ := winCardBranch_some _ _ hw
    exact Or.inl ⟨i, card, hflag, hf, rfl⟩
  | none =>
    cases hd : delayedBranch (refillIfEmpty g) with
    | some res =>
      obtain ⟨i, d, hf, rfl⟩ := delayedBranch_some _ _ hd
      exact Or.inr (Or.inl ⟨rfl, i, d, hf, rfl⟩)
    | none => exact Or.inr (Or.inr ⟨rfl, rfl, rfl⟩)

/-- Frame of `getNextCard`: the catalog and the resources are untouched, the pool
afterwards is drawn from the pool or the catalog, pending followups are only
removed, and no card changes its identifier. -/
theorem getNextCard_frame (g : Game) (r : Nat) :
    (getNextCard g r).2.cards = g.cards ∧
    (getNextCard g r).2.resources = g.resources ∧
    (∀ q ∈ (getNextCard g r).2.availableCards, q ∈ g.availableCards ∨ q ∈ g.cards) ∧
    (getNextCard g r).2.delayedCards.Sublist g.delayedCards ∧
    (∀ q, ((getNextCard g r).2.heap q).ID = (g.heap q).ID) := by
  have hcards : (refillIfEmpty g).cards = g.cards := refillIfEmpty_cards g
  have hres : (refillIfEmpty g).resources = g.resources := by
    unfold refillIfEmpty; split_ifs <;> rfl
  have hdel : (refillIfEmpty g).delayedCards = g.delayedCards := by
    unfold refillIfEmpty; split_ifs <;> rfl
  have hpool : ∀ q ∈ (refillIfEmpty g).availableCards, q ∈ g.availableCards ∨ q ∈ g.cards := by
    intro q hq
    unfold refillIfEmpty at hq
    split_ifs at hq
    · exact Or.inr hq
    · exact Or.inl hq
  have hid : ∀ q, ((refillIfEmpty g).heap q).ID = (g.heap q).ID := by
    intro q
    rw [refillIfEmpty_heap]
    split_ifs <;> rfl
  have hset : ∀ (h : Nat → Card) (p : Nat) (u : Int) (q : Nat), (setUses h p u q).ID = (h q).ID := by
    intro h p u q
    rw [setUses_apply]; split_ifs <;> rfl
  have hrid : ∀ (g0 : Game) (q : Nat), ((resetAvailableCards g0).heap q).ID = (g0.heap q).ID := by
    intro g0 q
    rw [resetAvailableCards_heap]; split_ifs <;> rfl
  rcases getNextCard_cases g r with ⟨i, card, -, -, he⟩ | ⟨-, i, d, -, he⟩ | ⟨-, -, he⟩
  · rw [he]
    refine ⟨hcards, hres, ?_, ?_, ?_⟩
    · intro q hq
      exact hpool q (List.eraseIdx_subset _ _ hq)
    · show (refillIfEmpty g).delayedCards.Sublist _
      rw [hdel]
    · intro q
      show (setUses _ _ _ q).ID = _
      rw [hset, hid]
  · rw [he]
    refine ⟨hcards, hres, hpool, ?_, ?_⟩
    · show ((refillIfEmpty g).delayedCards.eraseIdx i).Sublist _
      rw [hdel]
      exact List.eraseIdx_sublist _ _
    · intro q
      show (setUses _ _ _ q).ID = _
      rw [hset, hid]
  · rw [he]
    rcases normalDraw_cases (refillIfEmpty g) r with
      ⟨-, sel, -, hn⟩ | ⟨-, -, sel, -, hn⟩ | ⟨-, -, hn⟩
    · rw [hn]
      refine ⟨hcards, hres, ?_, ?_, ?_⟩
      · intro q hq
        exact hpool q ((List.erase_sublist _ _).subset hq)
      · show (refillIfEmpty g).delayedCards.Sublist _
        rw [hdel]
      · intro q
        show (setUses _ _ _ q).ID = _
        rw [hset, hid]
    · rw [hn]
      refine ⟨hcards, hres, ?_, ?_, ?_⟩
      · intro q hq
        exact Or.inr (hcards ▸ (List.erase_sublist _ _).subset hq)
      · show (refillIfEmpty g).delayedCards.Sublist _
        rw [hdel]
      · intro q
        show (setUses _ _ _ q).ID = _
        rw [hset, hrid, hid]
    · rw [hn]
      refine ⟨hcards, hres, ?_, ?_, ?_⟩
      · intro q hq
        exact Or.inr (hcards ▸ hq)
      · show (refillIfEmpty g).delayedCards.Sublist _
        rw [hdel]
      · intro q
        show ((resetAvailableCards _).heap q).ID = _
        rw [hrid, hid]

/-- Within a cycle the shown flag, once set, stays set. -/
theorem getNextCard_flag_stays (g : Game) (r : Nat) (hne : g.availableCards ≠ [])
    (hflag : g.winCardShown = true) :
    takesWinBranch (g, r) = false ∧ (getNextCard g r).2.winCardShown = true := by
  have hre := refillIfEmpty_of_ne_nil g hne
  have hw : winCardBranch g = none := by
    unfold winCardBranch
    rw [if_neg (by simp [hflag])]
  refine ⟨by simp [takesWinBranch, hre, hw], ?_⟩
  rcases getNextCard_cases g r with ⟨i, card, hf, -, -⟩ | ⟨-, i, d, -, he⟩ | ⟨-, -, he⟩
  · rw [hre, hflag] at hf
    simp at hf
  · rw [he, hre]
    exact hflag
  · rw [he, hre]
    rcases normalDraw_cases g r with ⟨-, sel, -, hn⟩ | ⟨-, -, sel, -, hn⟩ | ⟨-, -, hn⟩ <;>
      rw [hn] <;> exact hflag

/-- A call answered by the win-card branch sets the shown flag and returns a card
with the win id. -/
theorem takesWinBranch_spec (g : Game) (r : Nat) (h : takesWinBranch (g, r) = true) :
    (getNextCard g r).2.winCardShown = true ∧ returnsWinCard (g, r) = true := by
  rcases getNextCard_cases g r with ⟨i, card, -, hf, he⟩ | ⟨hw, -⟩ | ⟨hw, -⟩
  · obtain ⟨-, hp, -⟩ := firstHit_some _ _ _ _ hf
    simp only [isWinCandidate, Bool.and_eq_true, decide_eq_true_eq] at hp
    have hid : (g.heap card).ID = winCardID := by
      have := hp.1
      rw [refillIfEmpty_heap] at this
      split_ifs at this <;> exact this
    refine ⟨by rw [he], ?_⟩
    simp only [returnsWinCard]
    rw [he]
    simp [hid]
  · simp [takesWinBranch, hw] at h
  · simp [takesWinBranch, hw] at h

theorem win_branch_never_again (steps : List (Resources × Nat)) :
    ∀ g : Game, g.winCardShown = true →
      (∀ c ∈ callTrace g steps, c.1.availableCards ≠ []) →
      (callTrace g steps).filter takesWinBranch = [] := by
  induction steps with
  | nil => intro g _ _; rfl
  | cons s rest ih =>
    intro g hflag hne
    rw [callTrace] at hne ⊢
    have h0 := hne _ (List.mem_cons_self _ _)
    obtain ⟨h1, h2⟩ := getNextCard_flag_stays { g with resources := s.1 } s.2 h0 hflag
    rw [List.filter_cons, h1]
    simp only [Bool.false_eq_true, if_false]
    exact ih _ h2 (fun c hc => hne c (List.mem_cons_of_mem _ hc))

theorem win_branch_at_most_once (steps : List (Resources × Nat)) :
    ∀ g : Game, (∀ c ∈ callTrace g steps, c.1.availableCards ≠ []) →
      ((callTrace g steps).filter takesWinBranch).length ≤ 1 := by
  induction steps with
  | nil => intro g _; simp [callTrace]
  | cons s rest ih =>
    intro g hne
    rw [callTrace] at hne ⊢
    have hrest := fun c hc => hne c (List.mem_cons_of_mem _ hc)
    rw [List.filter_cons]
    by_cases hw : takesWinBranch ({ g with resources := s.1 }, s.2) = true
    · rw [if_pos hw, win_branch_never_again rest _ (takesWinBranch_spec _ _ hw).1 hrest]
      simp
    · rw [if_neg hw]
      exact ih _ hrest

theorem erase_eq_eraseIdx_of_mem (l : List Nat) (a : Nat) (h : a ∈ l) :
    ∃ i, l[i]? = some a ∧ l.erase a = l.eraseIdx i := by
  induction l with
  | nil => simp at h
  | cons b bs ih =>
    by_cases hb : b = a
    · subst hb
      exact ⟨0, by simp, by simp⟩
    · have hm : a ∈ bs := by
        rcases List.mem_cons.mp h with h1 | h1
        · exact absurd h1.symm hb
        · exact h1
      obtain ⟨i, hi, he⟩ := ih hm
      refine ⟨i + 1, by simpa using hi, ?_⟩
      rw [List.erase_cons_tail (by simpa using hb), he, List.eraseIdx_cons_succ]

theorem not_mem_eraseIdx_of_nodup (l : List Nat) (i a : Nat) (hnd : l.Nodup)
    (hi : l[i]? = some a) : a ∉ l.eraseIdx i := by
  intro hmem
  obtain ⟨j, hj, hja⟩ := List.mem_eraseIdx_iff_getElem?.mp hmem
  obtain ⟨hlt, -⟩ := List.getElem?_eq_some.mp hja
  exact hj (List.getElem?_inj hlt hnd (hja.trans hi.symm))

/-- A call that does not reshuffle returns a card of the pool, which it removes
from the pool, or the card of a pending followup. -/
theorem getNextCard_no_reshuffle (g : Game) (r : Nat) (h : reshuffles (g, r) = false) :
    (∃ p i, g.availableCards[i]? = some p ∧ (getNextCard g r).1 = some p ∧
      (getNextCard g r).2.availableCards = g.availableCards.eraseIdx i) ∨
    (∃ d ∈ g.delayedCards, (getNextCard g r).1 = some d.Card ∧
      (getNextCard g r).2.availableCards = g.availableCards) := by
  simp only [reshuffles, Bool.or_eq_false_iff, List.isEmpty_eq_false] at h
  obtain ⟨hne, hrest⟩ := h
  have hre := refillIfEmpty_of_ne_nil g hne
  rcases getNextCard_cases g r with ⟨i, card, -, hf, he⟩ | ⟨-, i, d, hf, he⟩ | ⟨hw, hd, he⟩
  · rw [hre] at hf he
    obtain ⟨-, -, hi⟩ := firstHit_some _ _ _ _ hf
    exact Or.inl ⟨card, i, hi, by rw [he], by rw [he]⟩
  · rw [hre] at hf he
    obtain ⟨hm, -, -⟩ := firstHit_some _ _ _ _ hf
    exact Or.inr ⟨d, hm, by rw [he], by rw [he]⟩
  · rw [hre] at hw hd he
    have hfil : g.availableCards.filter (isValidCard g) ≠ [] := by
      simpa [hw, hd] using hrest
    rcases normalDraw_cases g r with ⟨-, sel, hsel, hn⟩ | ⟨h1, -⟩ | ⟨h1, -⟩
    · obtain ⟨i, hi, hei⟩ := erase_eq_eraseIdx_of_mem _ _ (List.mem_filter.mp hsel).1
      exact Or.inl ⟨sel, i, hi, by rw [he, hn], by rw [he, hn]; exact hei⟩
    · exact absurd h1 hfil
    · exact absurd h1 hfil

theorem NoWinCardLeft_never_returned (steps : List (Resources × Nat)) :
    ∀ g : Game, NoWinCardLeft g →
      (∀ c ∈ callTrace g steps, reshuffles c = false) →
      (callTrace g steps).filter returnsWinCard = [] := by
  induction steps with
  | nil => intro g _ _; rfl
  | cons s rest ih =>
    intro g hK hno
    rw [callTrace] at hno ⊢
    have h0 := hno _ (List.mem_cons_self _ _)
    have hrest := fun c hc => hno c (List.mem_cons_of_mem _ hc)
    obtain ⟨-, -, -, hdel, hid⟩ := getNextCard_frame { g with resources := s.1 } s.2
    have hret : returnsWinCard ({ g with resources := s.1 }, s.2) = false ∧
        ∀ q ∈ (getNextCard { g with resources := s.1 } s.2).2.availableCards,
          q ∈ g.availableCards := by
      rcases getNextCard_no_reshuffle _ _ h0 with ⟨p, i, hi, hp, hpool⟩ | ⟨d, hd, hp, hpool⟩
      · have hmem : p ∈ g.availableCards := List.getElem?_mem hi
        refine ⟨?_, ?_⟩
        · simp only [returnsWinCard]
          rw [hp]
          simpa using hK.1 p hmem
        · intro q hq
          rw [hpool] at hq
          exact List.eraseIdx_subset _ _ hq
      · refine ⟨?_, ?_⟩
        · simp only [returnsWinCard]
          rw [hp]
          simpa using hK.2 d hd
        · intro q hq
          rw [hpool] at hq
          exact hq
    rw [List.filter_cons, hret.1]
    simp only [Bool.false_eq_true, if_false]
    refine ih _ ⟨?_, ?_⟩ hrest
    · intro q hq
      rw [hid]
      exact hK.1 q (hret.2 q hq)
    · intro d hd
      rw [hid]
      exact hK.2 d (hdel.subset hd)

theorem win_card_at_most_once (steps : List (Resources × Nat)) :
    ∀ g : Game, (∀ c ∈ callTrace g steps, reshuffles c = false) →
      g.availableCards.Nodup →
      (∀ q ∈ g.availableCards, ∀ q2 ∈ g.availableCards,
        (g.heap q).ID = winCardID → (g.heap q2).ID = winCardID → q = q2) →
      (∀ d ∈ g.delayedCards, (g.heap d.Card).ID ≠ winCardID) →
      ((callTrace g steps).filter returnsWinCard).length ≤ 1 := by
  induction steps with
  | nil => intro g _ _ _ _; simp [callTrace]
  | cons s rest ih =>
    intro g hno hnd huniq hdelay
    rw [callTrace] at hno ⊢
    have h0 := hno _ (List.mem_cons_self _ _)
    have hrest := fun c hc => hno c (List.mem_cons_of_mem _ hc)
    obtain ⟨-, -, -, hdel, hid⟩ := getNextCard_frame { g with resources := s.1 } s.2
    have hdelay2 : ∀ d ∈ (getNextCard { g with resources := s.1 } s.2).2.delayedCards,
        ((getNextCard { g with resources := s.1 } s.2).2.heap d.Card).ID ≠ winCardID := by
      intro d hd
      rw [hid]
      exact hdelay d (hdel.subset hd)
    rw [List.filter_cons]
    rcases getNextCard_no_reshuffle _ _ h0 with ⟨p, i, hi, hp, hpool⟩ | ⟨d, hd, hp, hpool⟩
    · have hi2 : g.availableCards[i]? = some p := hi
      have hpool2 : (getNextCard { g with resources := s.1 } s.2).2.availableCards =
          g.availableCards.eraseIdx i := hpool
      by_cases hw : returnsWinCard ({ g with resources := s.1 }, s.2) = true
      · rw [if_pos hw]
        have hpid : (g.heap p).ID = winCardID := by
          simp only [returnsWinCard] at hw
          rw [hp] at hw
          simpa using hw
        have hK : NoWinCardLeft (getNextCard { g with resources := s.1 } s.2).2 := by
          refine ⟨?_, hdelay2⟩
          intro q hq hqid
          rw [hid] at hqid
          rw [hpool2] at hq
          have hqp : q = p :=
            huniq q (List.eraseIdx_subset _ _ hq) p (List.getElem?_mem hi2) hqid hpid
          rw [hqp] at hq
          exact not_mem_eraseIdx_of_nodup _ _ _ hnd hi2 hq
        rw [NoWinCardLeft_never_returned rest _ hK hrest]
        simp
      · rw [if_neg hw]
        refine ih _ hrest ?_ ?_ hdelay2
        · rw [hpool2]
          exact hnd.eraseIdx i
        · intro q hq q2 hq2 h1 h2
          rw [hid] at h1 h2
          rw [hpool2] at hq hq2
          exact huniq q (List.eraseIdx_subset _ _ hq) q2 (List.eraseIdx_subset _ _ hq2) h1 h2
    · have hpool2 : (getNextCard { g with resources := s.1 } s.2).2.availableCards =
          g.availableCards := hpool
      have hw : returnsWinCard ({ g with resources := s.1 }, s.2) = false := by
        simp only [returnsWinCard]
        rw [hp]
        simpa using hdelay d hd
      rw [hw]
      simp only [Bool.false_eq_true, if_false]
      refine ih _ hrest ?_ ?_ hdelay2
      · rw [hpool2]; exact hnd
      · intro q hq q2 hq2 h1 h2
        rw [hid] at h1 h2
        rw [hpool2] at hq hq2
        exact huniq q hq q2 hq2 h1 h2

theorem round53_small (m : Nat) (h : m < 2 ^ 53) : round53 m = m := by
  unfold round53
  rw [if_pos h]

theorem scaleHalf_eq_truncHalf (x : Int) (h : x.natAbs < 2 ^ 53) :
    scaleHalf x = truncHalf x := by
  unfold scaleHalf truncHalf
  rw [round53_small _ h]
  rcases Int.natAbs_eq x with hx | hx
  · by_cases h0 : x.natAbs = 0
    · rw [hx, h0]; rfl
    · have hpos : (0 : Int) < (x.natAbs : Int) := by omega
      rw [hx, Int.sign_eq_one_of_pos hpos, one_mul, Int.natAbs_ofNat, Int.ofNat_tdiv]
      rfl
  · by_cases h0 : x.natAbs = 0
    · rw [hx, h0]; rfl
    · have hneg : -(x.natAbs : Int) < 0 := by omega
      rw [hx, Int.sign_eq_neg_one_of_neg hneg, Int.natAbs_neg, Int.natAbs_ofNat, Int.neg_tdiv,
        Int.ofNat_tdiv]
      simp

set_option maxRecDepth 100000 in
theorem scale035_table :
    ∀ n : Nat, n < 180 →
      scale035 (n : Int) = trunc035 (n : Int) ∧ scale035 (-(n : Int)) = trunc035 (-(n : Int)) := by
  decide

theorem scale035_eq_trunc035 (x : Int) (h : x.natAbs < 180) : scale035 x = trunc035 x := by
  rcases Int.natAbs_eq x with hx | hx
  · rw [hx]; exact (scale035_table _ h).1
  · rw [hx]; exact (scale035_table _ h).2

theorem wrap64_of_inInt64 (x : Int) (h : InInt64 x) : wrap64 x = x := by
  unfold InInt64 at h
  unfold wrap64
  omega

theorem clamp_of_mem (x : Int) (h0 : 0 ≤ x) (h1 : x ≤ 100) : clamp x minValue maxValue = x := by
  unfold clamp minValue maxValue
  split_ifs <;> omega

/-! ## Lemmas: decisions -/

/-- Accepting the competitor offer: the state that `processCard` returns. -/
theorem processCard_accept_offer (g : Game) (cur r : Nat) (hcur : g.currentCard = some cur)
    (hover : g.gameOver = false) (hid : (g.heap cur).ID = winCardID) :
    processCard g true r =
      { g with
        playedCardIDs := g.playedCardIDs ++ [winCardID]
        gameOver := true
        state := stateGameOver
        gameOverReason := competitorWinMessage } := by
  have hne : winCardID ≠ "" := by decide
  unfold processCard
  simp only [hcur, hover, hid, Bool.false_eq_true, if_false, ne_eq, hne, not_false_eq_true,
    if_true, and_self]

/-- A decision other than accepting the competitor offer: effects, then the next
card unless the game is over. -/
theorem processCard_apply (g : Game) (cur : Nat) (isYes : Bool) (r : Nat)
    (hcur : g.currentCard = some cur) (hover : g.gameOver = false)
    (hnot : ¬ ((g.heap cur).ID = winCardID ∧ isYes = true)) :
    processCard g isYes r =
      if (afterEffects g cur isYes).gameOver = true then afterEffects g cur isYes
      else
        { (getNextCard (afterEffects g cur isYes) r).2 with
          currentCard := (getNextCard (afterEffects g cur isYes) r).1 } := by
  unfold processCard afterEffects recordPlayed decisionEffects
  simp only [hcur, hover, Bool.false_eq_true, if_false, if_neg hnot]
  by_cases hi : (g.heap cur).IsInfoOnly = true
  · simp only [hi, if_true]
    split_ifs <;> simp_all
  · by_cases hy : isYes = true
    · simp only [hi, hy, if_true, Bool.false_eq_true, if_false]
      split_ifs <;> simp_all
    · simp only [hi, hy, Bool.false_eq_true, if_false]
      split_ifs <;> simp_all

/-- A check that does not end the game changes nothing. -/
theorem checkGameOver_not_over (g : Game) (h : (checkGameOver g).2.gameOver = false) :
    (checkGameOver g).2 = g := by
  unfold checkGameOver at h ⊢
  by_cases h1 : g.gameOver = true
  · rw [if_pos h1]
  · rw [if_neg h1] at h ⊢
    split_ifs at h ⊢ with h2
    rfl

theorem updateResources_eq (g : Game) (e : Effects) :
    updateResources g e =
      (checkGameOver { g with resources :=
        { Motivation :=
            clamp (wrap64 (g.resources.Motivation + scaleHalf e.Motivation)) minValue maxValue
          Performance :=
            clamp (wrap64 (g.resources.Performance + scaleHalf e.Performance)) minValue maxValue
          Colleagues :=
            clamp (wrap64 (g.resources.Colleagues + scale035 e.Colleagues)) minValue maxValue
          Boss := clamp (wrap64 (g.resources.Boss + scaleHalf e.Boss)) minValue maxValue
          Day := wrap64 (g.resources.Day + 1) } }).2 := rfl

/-- An update that does not end the game leaves flag, state and reason as they were. -/
theorem updateResources_not_over (g : Game) (e : Effects)
    (h : (updateResources g e).gameOver = false) :
    g.gameOver = false ∧ (updateResources g e).state = g.state ∧
    (updateResources g e).gameOverReason = g.gameOverReason := by
  rw [updateResources_eq] at h ⊢
  have hc := checkGameOver_not_over _ h
  rw [hc] at h ⊢
  exact ⟨h, rfl, rfl⟩

/-- Frame of `getNextCard` on the fields of the state machine. -/
theorem getNextCard_frame_machine (g : Game) (r : Nat) :
    (getNextCard g r).2.gameOver = g.gameOver ∧
    (getNextCard g r).2.state = g.state ∧
    (getNextCard g r).2.gameOverReason = g.gameOverReason ∧
    (getNextCard g r).2.playedCardIDs = g.playedCardIDs ∧
    (getNextCard g r).2.heapNext = g.heapNext := by
  have hre : (refillIfEmpty g).gameOver = g.gameOver ∧ (refillIfEmpty g).state = g.state ∧
      (refillIfEmpty g).gameOverReason = g.gameOverReason ∧
      (refillIfEmpty g).playedCardIDs = g.playedCardIDs ∧
      (refillIfEmpty g).heapNext = g.heapNext := by
    unfold refillIfEmpty
    split_ifs <;> exact ⟨rfl, rfl, rfl, rfl, rfl⟩
  rcases getNextCard_cases g r with ⟨i, card, -, -, he⟩ | ⟨-, i, d, -, he⟩ | ⟨-, -, he⟩
  · rw [he]; exact hre
  · rw [he]; exact hre
  · rw [he]
    rcases normalDraw_cases (refillIfEmpty g) r with
      ⟨-, sel, -, hn⟩ | ⟨-, -, sel, -, hn⟩ | ⟨-, -, hn⟩ <;> rw [hn] <;> exact hre

/-! ## Lemmas: followups and reshuffles -/

/-- The call that reaches the normal draw of a non-empty pool without a valid
card: what it returns after its reshuffle. -/
theorem getNextCard_after_reshuffle (g : Game) (r : Nat) (hpool : g.availableCards ≠ [])
    (hwin : winCardBranch g = none) (hdel : delayedBranch g = none)
    (hnone : g.availableCards.filter (isValidCard g) = []) :
    getNextCard g r = (none, resetAvailableCards g) ∨
    ∃ sel ∈ g.cards, getNextCard g r =
      (some sel,
        { resetAvailableCards g with
          availableCards := g.cards.erase sel
          heap := setUses (resetAvailableCards g).heap sel 1 }) := by
  have hre := refillIfEmpty_of_ne_nil g hpool
  have he : getNextCard g r = normalDraw g r := by
    simp only [getNextCard, hre, hwin, hdel]
  rw [he]
  rcases normalDraw_cases g r with ⟨h1, -⟩ | ⟨-, -, sel, hsel, hn⟩ | ⟨-, -, hn⟩
  · exact absurd hnone h1
  · right
    have hm : sel ∈ g.cards := (List.mem_filter.mp hsel).1
    refine ⟨sel, hm, ?_⟩
    rw [hn, resetAvailableCards_uses_of_mem g sel hm]
    rfl
  · left; exact hn

/-! ## Lemmas: use counters -/

theorem resetOf_self (g : Game) : ResetOf g g.heap :=
  fun _ => ⟨rfl, Or.inl rfl⟩

theorem resetOf_reset (g g0 : Game) (hc : g0.cards = g.cards) (h : ResetOf g g0.heap) :
    ResetOf g (resetAvailableCards g0).heap := by
  intro q
  rw [resetAvailableCards_heap]
  by_cases hq : q ∈ g0.cards
  · rw [if_pos hq]
    exact ⟨(h q).1, Or.inr ⟨hc ▸ hq, rfl⟩⟩
  · rw [if_neg hq]
    exact h q

theorem resetOf_refill (g : Game) : ResetOf g (refillIfEmpty g).heap := by
  unfold refillIfEmpty
  split_ifs
  · exact resetOf_reset g g rfl (resetOf_self g)
  · exact resetOf_self g

/-- The store after `getNextCard`: the store after the reshuffles of the call,
with at most one counter, strictly below its maximum, incremented by one. -/
theorem getNextCard_heap_shape (g : Game) (r : Nat) :
    ∃ h1 : Nat → Card, ResetOf g h1 ∧
      ((getNextCard g r).2.heap = h1 ∨
        ∃ p, (h1 p).Uses < (h1 p).MaxUses ∧
          (getNextCard g r).2.heap = setUses h1 p ((h1 p).Uses + 1)) := by
  rcases getNextCard_cases g r with ⟨i, card, -, hf, he⟩ | ⟨-, i, d, hf, he⟩ | ⟨-, -, he⟩
  · obtain ⟨-, hp, -⟩ := firstHit_some _ _ _ _ hf
    simp only [isWinCandidate, Bool.and_eq_true, decide_eq_true_eq] at hp
    exact ⟨_, resetOf_refill g, Or.inr ⟨card, hp.2, by rw [he]⟩⟩
  · obtain ⟨-, hp, -⟩ := firstHit_some _ _ _ _ hf
    simp only [isDueFollowup, Bool.and_eq_true, decide_eq_true_eq] at hp
    exact ⟨_, resetOf_refill g, Or.inr ⟨d.Card, hp.2.2, by rw [he]⟩⟩
  · rw [he]
    rcases normalDraw_cases (refillIfEmpty g) r with
      ⟨-, sel, hsel, hn⟩ | ⟨-, -, sel, hsel, hn⟩ | ⟨-, -, hn⟩
    · have hv := (List.mem_filter.mp hsel).2
      simp only [isValidCard, Bool.and_eq_true, decide_eq_true_eq] at hv
      exact ⟨_, resetOf_refill g, Or.inr ⟨sel, hv.1, by rw [hn]⟩⟩
    · have hv := (List.mem_filter.mp hsel).2
      simp only [isValidCard, Bool.and_eq_true, decide_eq_true_eq] at hv
      exact ⟨_, resetOf_reset g _ (refillIfEmpty_cards g) (resetOf_refill g),
        Or.inr ⟨sel, hv.1, by rw [hn]⟩⟩
    · exact ⟨_, resetOf_reset g _ (refillIfEmpty_cards g) (resetOf_refill g),
        Or.inl (by rw [hn])⟩

/-- A store of the shape left by `getNextCard` keeps the maximum-use counts and
changes the use counters by allowed steps only. -/
theorem usesStep_of_shape (g g2 : Game) (h1 : Nat → Card) (hr : ResetOf g h1)
    (hs : g2.heap = h1 ∨
      ∃ p, (h1 p).Uses < (h1 p).MaxUses ∧ g2.heap = setUses h1 p ((h1 p).Uses + 1)) :
    (∀ q, (g2.heap q).MaxUses = (g.heap q).MaxUses) ∧ UsesStep g g2 := by
  unfold UsesStep
  rcases hs with hs | ⟨p, hp, hs⟩
  · rw [hs]
    refine ⟨fun q => (hr q).1, fun q => ?_⟩
    rcases (hr q).2 with h | ⟨-, h⟩
    · exact Or.inl h
    · exact Or.inr (Or.inl h)
  · rw [hs]
    refine ⟨fun q => ?_, fun q => ?_⟩
    · rw [setUses_apply]
      split_ifs
      · exact (hr q).1
      · exact (hr q).1
    · rw [setUses_apply]
      by_cases hq : q = p
      · subst hq
        rw [if_pos rfl]
        have hm := (hr q).1
        rcases (hr q).2 with h | ⟨-, h⟩
        · refine Or.inr (Or.inr (Or.inl ⟨?_, ?_⟩))
          · show (h1 q).Uses + 1 = _
            rw [h]
          · rw [← h, ← hm]; exact hp
        · refine Or.inr (Or.inr (Or.inr ⟨?_, ?_⟩))
          · show (h1 q).Uses + 1 = 1
            rw [h]; rfl
          · rw [← hm]
            rw [h] at hp
            exact hp
      · rw [if_neg hq]
        rcases (hr q).2 with h | ⟨-, h⟩
        · exact Or.inl h
        · exact Or.inr (Or.inl h)

/-- Allowed steps on a store with unchanged maximum-use counts keep the
invariant on any catalog and pending list that did not grow. -/
theorem usesBounded_of_step (g g2 : Game) (hb : UsesBounded g)
    (hc : ∀ q ∈ g2.cards, q ∈ g.cards)
    (hd : ∀ d ∈ g2.delayedCards, d ∈ g.delayedCards)
    (hm : ∀ q, (g2.heap q).MaxUses = (g.heap q).MaxUses) (hs : UsesStep g g2) :
    UsesBounded g2 := by
  intro q hq
  have hq2 : q ∈ g.cards ∨ ∃ d ∈ g.delayedCards, d.Card = q := by
    rcases hq with h | ⟨d, hd1, hd2⟩
    · exact Or.inl (hc q h)
    · exact Or.inr ⟨d, hd d hd1, hd2⟩
  obtain ⟨h0, h1⟩ := hb q hq2
  rw [hm q]
  refine ⟨h0, ?_⟩
  rcases hs q with h | h | ⟨h, h2⟩ | ⟨h, h2⟩ <;> omega

theorem getNextCard_uses (g : Game) (r : Nat) (hb : UsesBounded g) :
    UsesBounded (getNextCard g r).2 ∧ UsesStep g (getNextCard g r).2 := by
  obtain ⟨h1, hr, hs⟩ := getNextCard_heap_shape g r
  obtain ⟨hm, hstep⟩ := usesStep_of_shape g (getNextCard g r).2 h1 hr hs
  obtain ⟨hc, -, -, hd, -⟩ := getNextCard_frame g r
  exact ⟨usesBounded_of_step g _ hb (fun q hq => hc ▸ hq) (fun d h => hd.subset h) hm hstep,
    hstep⟩

theorem resetAvailableCards_uses (g : Game) (hb : UsesBounded g) :
    UsesBounded (resetAvailableCards g) ∧ UsesStep g (resetAvailableCards g) := by
  obtain ⟨hm, hstep⟩ := usesStep_of_shape g (resetAvailableCards g) _
    (resetOf_reset g g rfl (resetOf_self g)) (Or.inl rfl)
  exact ⟨usesBounded_of_step g _ hb (fun q hq => hq) (fun d h => h) hm hstep, hstep⟩

theorem afterEffects_frame (g : Game) (cur : Nat) (isYes : Bool) :
    (afterEffects g cur isYes).cards = g.cards ∧
    (afterEffects g cur isYes).delayedCards = g.delayedCards ∧
    (afterEffects g cur isYes).heap = g.heap ∧
    (afterEffects g cur isYes).availableCards = g.availableCards := by
  have hrec : (recordPlayed g cur).cards = g.cards ∧
      (recordPlayed g cur).delayedCards = g.delayedCards ∧
      (recordPlayed g cur).heap = g.heap ∧
      (recordPlayed g cur).availableCards = g.availableCards := by
    unfold recordPlayed; split_ifs <;> exact ⟨rfl, rfl, rfl, rfl⟩
  unfold afterEffects
  rw [updateResources_eq]
  unfold checkGameOver
  split_ifs <;> exact hrec

theorem usesBounded_congr (g g2 : Game) (hc : g2.cards = g.cards)
    (hd : g2.delayedCards = g.delayedCards) (hh : g2.heap = g.heap) :
    (UsesBounded g → UsesBounded g2) ∧ (∀ g3, UsesStep g2 g3 → UsesStep g g3) := by
  constructor
  · intro hb q hq
    rw [hc, hd] at hq
    rw [hh]
    exact hb q hq
  · intro g3 hs q
    have := hs q
    rw [hh] at this
    exact this

theorem usesStep_refl (g g2 : Game) (hh : g2.heap = g.heap) : UsesStep g g2 :=
  fun q => Or.inl (by rw [hh])

theorem processCard_uses (g : Game) (isYes : Bool) (r : Nat) (hb : UsesBounded g) :
    UsesBounded (processCard g isYes r) ∧ UsesStep g (processCard g isYes r) := by
  cases hcur : g.currentCard with
  | none =>
    have : processCard g isYes r = g := by unfold processCard; rw [hcur]
    rw [this]
    exact ⟨hb, usesStep_refl g g rfl⟩
  | some cur =>
    by_cases hover : g.gameOver = true
    · have : processCard g isYes r = g := by
        unfold processCard; simp only [hcur, hover, if_true]
      rw [this]
      exact ⟨hb, usesStep_refl g g rfl⟩
    · have hover2 : g.gameOver = false := by simpa using hover
      by_cases hwin : (g.heap cur).ID = winCardID ∧ isYes = true
      · obtain ⟨hid, hy⟩ := hwin
        subst hy
        rw [processCard_accept_offer g cur r hcur hover2 hid]
        exact ⟨(usesBounded_congr g _ rfl rfl rfl).1 hb, usesStep_refl g _ rfl⟩
      · rw [processCard_apply g cur isYes r hcur hover2 hwin]
        obtain ⟨hc, hd, hh, -⟩ := afterEffects_frame g cur isYes
        obtain ⟨hb2, hstep2⟩ := usesBounded_congr g (afterEffects g cur isYes) hc hd hh
        split_ifs
        · exact ⟨hb2 hb, usesStep_refl g _ hh⟩
        · obtain ⟨h1, h2⟩ := getNextCard_uses (afterEffects g cur isYes) r (hb2 hb)
          exact ⟨(usesBounded_congr (getNextCard (afterEffects g cur isYes) r).2 _ rfl rfl rfl).1 h1,
            hstep2 _ (fun q => h2 q)⟩

theorem restartGame_uses (g : Game) (hb : UsesBounded g) :
    UsesBounded (restartGame g) ∧ UsesStep g (restartGame g) := by
  have hheap : ∀ q, (restartGame g).heap q =
      if q = g.heapNext then
        { ID := "WELCOME", Text := "Hazırsanız başlayalım", IsInfoOnly := true, Effects := {},
          MaxUses := 1 }
      else if q ∈ g.cards then { g.heap q with Uses := 0 } else g.heap q := by
    intro q
    show (if q = g.heapNext then (_ : Card) else (resetAvailableCards _).heap q) = _
    rw [resetAvailableCards_heap]
  constructor
  · intro q hq
    have hq2 : q ∈ g.cards := by
      rcases hq with h | ⟨d, hd, -⟩
      · exact h
      · exact absurd hd (List.not_mem_nil d)
    rw [hheap]
    by_cases h1 : q = g.heapNext
    · rw [if_pos h1]
      exact ⟨by decide, by decide⟩
    · rw [if_neg h1, if_pos hq2]
      exact ⟨(hb q (Or.inl hq2)).1, (hb q (Or.inl hq2)).1⟩
  · intro q
    rw [hheap]
    by_cases h1 : q = g.heapNext
    · rw [if_pos h1]
      exact Or.inr (Or.inl rfl)
    · rw [if_neg h1]
      by_cases h2 : q ∈ g.cards
      · rw [if_pos h2]
        exact Or.inr (Or.inl rfl)
      · rw [if_neg h2]
        exact Or.inl rfl

/-! ## Lemmas: a run up to the largest day -/

theorem Game.ext_fields (a b : Game) (h1 : a.state = b.state) (h2 : a.resources = b.resources)
    (h3 : a.cards = b.cards) (h4 : a.availableCards = b.availableCards)
    (h5 : a.currentCard = b.currentCard) (h6 : a.delayedCards = b.delayedCards)
    (h7 : a.playedCardIDs = b.playedCardIDs) (h8 : a.gameOver = b.gameOver)
    (h9 : a.winCardShown = b.winCardShown) (h10 : a.gameOverReason = b.gameOverReason)
    (h11 : ∀ q, a.heap q = b.heap q) (h12 : a.heapNext = b.heapNext) : a = b := by
  cases a
  cases b
  simp only [Game.mk.injEq]
  exact ⟨h1, h2, h3, h4, h5, h6, h7, h8, h9, h10, funext h11, h12⟩

/-- An update without deltas of a running game with all stats at 40 only moves
the day. -/
theorem updateResources_idle (g : Game) (hg : g.gameOver = false)
    (hr : g.resources.Motivation = 40 ∧ g.resources.Performance = 40 ∧
      g.resources.Colleagues = 40 ∧ g.resources.Boss = 40) :
    updateResources g {} =
      { g with resources :=
        { Motivation := 40, Performance := 40, Colleagues := 40, Boss := 40,
          Day := wrap64 (g.resources.Day + 1) } } := by
  obtain ⟨h1, h2, h3, h4⟩ := hr
  have h40 : clamp (wrap64 (40 + scaleHalf 0)) minValue maxValue = 40 := by decide
  have h40c : clamp (wrap64 (40 + scale035 0)) minValue maxValue = 40 := by decide
  have e1 : ({} : Effects).Motivation = 0 := rfl
  have e2 : ({} : Effects).Performance = 0 := rfl
  have e3 : ({} : Effects).Colleagues = 0 := rfl
  have e4 : ({} : Effects).Boss = 0 := rfl
  rw [updateResources_eq, h1, h2, h3, h4, e1, e2, e3, e4, h40, h40c]
  unfold checkGameOver
  simp [hg, minValue, maxValue]

theorem longRun_afterEffects (d : Int) (hist : List String) :
    afterEffects (longRunState d hist) 0 false =
      longRunState (wrap64 (d + 1)) (hist ++ ["COFFEE_BREAK"]) := by
  have hid : ((longRunState d hist).heap 0).ID = "COFFEE_BREAK" := rfl
  have hrec : recordPlayed (longRunState d hist) 0 =
      longRunState d (hist ++ ["COFFEE_BREAK"]) := by
    unfold recordPlayed
    rw [hid, if_pos (by decide)]
    rfl
  have heff : decisionEffects ((longRunState d hist).heap 0) false = {} := rfl
  unfold afterEffects
  rw [hrec, heff, updateResources_idle _ rfl ⟨rfl, rfl, rfl, rfl⟩]
  rfl

theorem longRun_winCardBranch (d : Int) (hist : List String) :
    winCardBranch (refillIfEmpty (longRunState d hist)) = none := by
  unfold winCardBranch
  rw [if_neg]
  intro h
  have hm : (refillIfEmpty (longRunState d hist)).resources.Motivation = 40 := rfl
  have h2 := h.2.1
  rw [hm] at h2
  exact absurd h2 (by decide)

theorem longRun_getNextCard (d : Int) (hist : List String) :
    getNextCard (longRunState d hist) 0 =
      normalDraw (refillIfEmpty (longRunState d hist)) 0 := by
  simp only [getNextCard, longRun_winCardBranch]
  rfl

/-- One more decision on the one-card session: the day moves by one (wrapped),
the card is drawn again after the reshuffle of the exhausted pool. -/
theorem longRun_step (d : Int) (hist : List String) :
    processCard (longRunState d hist) false 0 =
      longRunState (wrap64 (d + 1)) (hist ++ ["COFFEE_BREAK"]) := by
  rw [processCard_apply (longRunState d hist) 0 false 0 rfl rfl (by simp), longRun_afterEffects,
    if_neg (by simp [longRunState, newGameState]), longRun_getNextCard]
  apply Game.ext_fields <;> try rfl
  intro q
  match q with
  | 0 => rfl
  | 1 => rfl
  | q + 2 => rfl

/-- Dismissing the welcome card of the new one-card game shows the card at day 2. -/
theorem oneCardNewGame_step :
    processCard oneCardNewGame false 0 = longRunState 2 ["WELCOME"] := by
  have hid : (oneCardNewGame.heap 1).ID = "WELCOME" := rfl
  have hrec : recordPlayed oneCardNewGame 1 =
      { oneCardNewGame with playedCardIDs := ["WELCOME"] } := by
    unfold recordPlayed
    rw [hid, if_pos (by decide)]
    rfl
  have heff : decisionEffects (oneCardNewGame.heap 1) false = {} := rfl
  have hae : afterEffects oneCardNewGame 1 false =
      { oneCardNewGame with
        playedCardIDs := ["WELCOME"]
        resources :=
          { Motivation := 40, Performance := 40, Colleagues := 40, Boss := 40, Day := 2 } } := by
    unfold afterEffects
    rw [hrec, heff, updateResources_idle _ rfl ⟨rfl, rfl, rfl, rfl⟩]
    rfl
  have hw : winCardBranch (refillIfEmpty (afterEffects oneCardNewGame 1 false)) = none := by
    rw [hae]
    unfold winCardBranch
    rw [if_neg]
    intro h
    exact absurd h.2.1 (by decide)
  have hg : getNextCard (afterEffects oneCardNewGame 1 false) 0 =
      normalDraw (refillIfEmpty (afterEffects oneCardNewGame 1 false)) 0 := by
    simp only [getNextCard, hw]
    rw [hae]
    rfl
  rw [processCard_apply oneCardNewGame 1 false 0 rfl rfl (by simp [hid, winCardID]),
    if_neg (by rw [hae]; simp [oneCardNewGame, showWelcomeCard, oneCardDeck, newGameState]), hg,
    hae]
  apply Game.ext_fields <;> try rfl
  intro q
  match q with
  | 0 => rfl
  | 1 => rfl
  | q + 2 => rfl

theorem decideTimes_succ (n : Nat) (g : Game) :
    decideTimes (n + 1) g = decideTimes n (processCard g false 0) := rfl

/-- While the day counter stays in the range of a Go `int`, `n` decisions on the
one-card session move it by `n`. -/
theorem longRun_reach (n : Nat) :
    ∀ (d : Int) (hist : List String), -2 ^ 63 ≤ d → d + n < 2 ^ 63 →
      decideTimes n (longRunState d hist) =
        longRunState (d + n) (hist ++ List.replicate n "COFFEE_BREAK") := by
  induction n with
  | zero =>
    intro d hist _ _
    simp [decideTimes]
  | succ n ih =>
    intro d hist hlo hhi
    have hw : wrap64 (d + 1) = d + 1 := by
      apply wrap64_of_inInt64
      unfold InInt64
      push_cast at hhi
      omega
    rw [decideTimes_succ, longRun_step, hw, ih (d + 1) _ (by omega) (by push_cast at hhi; omega)]
    have e1 : d + 1 + (n : Int) = d + ((n + 1 : Nat) : Int) := by push_cast; ring
    have e2 : hist ++ ["COFFEE_BREAK"] ++ List.replicate n "COFFEE_BREAK" =
        hist ++ List.replicate (n + 1) "COFFEE_BREAK" := by
      rw [List.replicate_succ, List.append_assoc]
      rfl
    rw [e1, e2]

/-- The new one-card game reaches the largest day after 2^63 - 2 decisions. -/
theorem maxDayState_reached : decideTimes (2 ^ 63 - 2) oneCardNewGame = maxDayState := by
  have hn : (2 ^ 63 - 2 : Nat) = (2 ^ 63 - 3) + 1 := by norm_num
  rw [hn, decideTimes_succ, oneCardNewGame_step,
    longRun_reach (2 ^ 63 - 3) 2 ["WELCOME"] (by norm_num) (by norm_num)]
  have e1 : (2 : Int) + ((2 ^ 63 - 3 : Nat) : Int) = 2 ^ 63 - 1 := by norm_num
  rw [e1]
  rfl

theorem updateResources_wraps_day (g : Game) (e : Effects) :
    (updateResources g e).resources.Day = wrap64 (g.resources.Day + 1) := by
  rw [updateResources_resources]

/-! ## Lemmas: the pool stays within the catalog -/

theorem poolInCatalog_reset (g : Game) : PoolInCatalog (resetAvailableCards g) :=
  fun _ hq => hq

theorem poolInCatalog_getNextCard (g : Game) (r : Nat) (h : PoolInCatalog g) :
    PoolInCatalog (getNextCard g r).2 := by
  obtain ⟨hc, -, hp, -, -⟩ := getNextCard_frame g r
  intro q hq
  rw [hc]
  rcases hp q hq with h1 | h1
  · exact h q h1
  · exact h1

theorem poolInCatalog_processCard (g : Game) (isYes : Bool) (r : Nat) (h : PoolInCatalog g) :
    PoolInCatalog (processCard g isYes r) := by
  cases hcur : g.currentCard with
  | none =>
    have : processCard g isYes r = g := by unfold processCard; rw [hcur]
    rw [this]; exact h
  | some cur =>
    by_cases hover : g.gameOver = true
    · have : processCard g isYes r = g := by
        unfold processCard; simp only [hcur, hover, if_true]
      rw [this]; exact h
    · have hover2 : g.gameOver = false := by simpa using hover
      by_cases hwin : (g.heap cur).ID = winCardID ∧ isYes = true
      · obtain ⟨hid, hy⟩ := hwin
        subst hy
        rw [processCard_accept_offer g cur r hcur hover2 hid]
        exact h
      · rw [processCard_apply g cur isYes r hcur hover2 hwin]
        obtain ⟨hc, -, -, hp⟩ := afterEffects_frame g cur isYes
        have hae : PoolInCatalog (afterEffects g cur isYes) := by
          intro q hq
          rw [hc]
          rw [hp] at hq
          exact h q hq
        split_ifs
        · exact hae
        · exact poolInCatalog_getNextCard _ r hae

theorem poolInCatalog_restartGame (g : Game) : PoolInCatalog (restartGame g) :=
  fun _ hq => hq

/-! ## Lemmas: the source of a card returned from outside the catalog -/

/-- C1: for every game state, whatever the four stat values are beforehand,
and every Effects value, after `updateResources` each of Motivation, Performance,
Colleagues and Boss lies in the closed range [0,100]. -/
theorem updateResources_stats_in_range (g : Game) (e : Effects) :
    (0 ≤ (updateResources g e).resources.Motivation ∧
      (updateResources g e).resources.Motivation ≤ 100) ∧
    (0 ≤ (updateResources g e).resources.Performance ∧
      (updateResources g e).resources.Performance ≤ 100) ∧
    (0 ≤ (updateResources g e).resources.Colleagues ∧
      (updateResources g e).resources.Colleagues ≤ 100) ∧
    (0 ≤ (updateResources g e).resources.Boss ∧
      (updateResources g e).resources.Boss ≤ 100) :=
  updateResources_bounds g e

/-- C2: for every state that is not already game-over and every Effects value,
after `updateResources` the game-over flag is set if and only if at least one of
the four stats is at 0 or at 100; when it is set the state is `stateGameOver` and
the reason is the message of the first satisfied condition in the fixed order
motivation-low, motivation-high, performance-low, performance-high,
colleagues-low, colleagues-high, boss-low, boss-high; the eight messages are
pairwise distinct; and from 40/40/40/40 at day 1 the effect with motivation -100
gives motivation 0, day 2 and game-over with the motivation-floor reason. -/
theorem updateResources_game_over_iff (g : Game) (e : Effects) (h : g.gameOver = false) :
    ((updateResources g e).gameOver = true ↔
      ((updateResources g e).resources.Motivation = 0 ∨
       (updateResources g e).resources.Motivation = 100 ∨
       (updateResources g e).resources.Performance = 0 ∨
       (updateResources g e).resources.Performance = 100 ∨
       (updateResources g e).resources.Colleagues = 0 ∨
       (updateResources g e).resources.Colleagues = 100 ∨
       (updateResources g e).resources.Boss = 0 ∨
       (updateResources g e).resources.Boss = 100)) ∧
    ((updateResources g e).gameOver = true →
      (updateResources g e).state = stateGameOver ∧
      some (updateResources g e).gameOverReason =
        firstTerminalReason (updateResources g e).resources) ∧
    [msgMotivationLow, msgMotivationHigh, msgPerformanceLow, msgPerformanceHigh,
      msgColleaguesLow, msgColleaguesHigh, msgBossLow, msgBossHigh].Nodup ∧
    (g.resources = { Motivation := 40, Performance := 40, Colleagues := 40, Boss := 40, Day := 1 } →
      e = { Motivation := -100 } →
      (updateResources g e).resources.Motivation = 0 ∧
      (updateResources g e).resources.Day = 2 ∧
      (updateResources g e).gameOver = true ∧
      (updateResources g e).state = stateGameOver ∧
      (updateResources g e).gameOverReason = msgMotivationLow) := by
  have hbounds := updateResources_bounds g e
  have hres := updateResources_resources g e
  have key : ∀ g0 : Game, g0.gameOver = false →
      g0.resources = (updateResources g e).resources →
      (checkGameOver g0).2 = updateResources g e →
      ((updateResources g e).gameOver = true ↔
        ((updateResources g e).resources.Motivation = 0 ∨
         (updateResources g e).resources.Motivation = 100 ∨
         (updateResources g e).resources.Performance = 0 ∨
         (updateResources g e).resources.Performance = 100 ∨
         (updateResources g e).resources.Colleagues = 0 ∨
         (updateResources g e).resources.Colleagues = 100 ∨
         (updateResources g e).resources.Boss = 0 ∨
         (updateResources g e).resources.Boss = 100)) ∧
      ((updateResources g e).gameOver = true →
        (updateResources g e).state = stateGameOver ∧
        some (updateResources g e).gameOverReason =
          firstTerminalReason (updateResources g e).resources) := by
    intro g0 h0 hr0 hc0
    have := checkGameOver_spec g0 h0 (hr0 ▸ hbounds.1) (hr0 ▸ hbounds.2.1)
      (hr0 ▸ hbounds.2.2.1) (hr0 ▸ hbounds.2.2.2)
    rw [hc0, hr0] at this
    exact this
  have hk := key
    { g with resources :=
      { Motivation := clamp (wrap64 (g.resources.Motivation + scaleHalf e.Motivation)) minValue maxValue
        Performance :=
          clamp (wrap64 (g.resources.Performance + scaleHalf e.Performance)) minValue maxValue
        Colleagues := clamp (wrap64 (g.resources.Colleagues + scale035 e.Colleagues)) minValue maxValue
        Boss := clamp (wrap64 (g.resources.Boss + scaleHalf e.Boss)) minValue maxValue
        Day := wrap64 (g.resources.Day + 1) } }
    h (by rw [hres]) rfl
  refine ⟨hk.1, hk.2, by decide, ?_⟩
  intro hg he
  have hr2 : (updateResources g e).resources =
      { Motivation := 0, Performance := 40, Colleagues := 40, Boss := 40, Day := 2 } := by
    rw [hres, hg, he]; decide
  have hover : (updateResources g e).gameOver = true := hk.1.2 (Or.inl (by rw [hr2]))
  have hreason := (hk.2 hover).2
  rw [hr2] at hreason
  refine ⟨by rw [hr2], by rw [hr2], hover, (hk.2 hover).1, ?_⟩
  have : firstTerminalReason
      { Motivation := 0, Performance := 40, Colleagues := 40, Boss := 40, Day := 2 } =
      some msgMotivationLow := by decide
  rw [this] at hreason
  exact Option.some.inj hreason

/-- Witness for C2: the scenario of the claim on the new-game state. -/
theorem updateResources_game_over_iff_witness :
    newGameState.gameOver = false ∧
    (updateResources newGameState { Motivation := -100 }).resources.Motivation = 0 ∧
    (updateResources newGameState { Motivation := -100 }).resources.Day = 2 ∧
    (updateResources newGameState { Motivation := -100 }).gameOver = true ∧
    (updateResources newGameState { Motivation := -100 }).state = stateGameOver ∧
    (updateResources newGameState { Motivation := -100 }).gameOverReason = msgMotivationLow :=
  ⟨rfl, (updateResources_game_over_iff newGameState { Motivation := -100 } rfl).2.2.2 rfl rfl⟩

/-! ## Claims about the requirement evaluator -/

/-- C7 fails as stated: on the "and" node without children `checkRequirements` is
false although every child (there is none) evaluates true. -/
theorem checkRequirements_and_empty_counterexample :
    ¬ (checkRequirements newGameState (some (compoundNode "and" [])) = true ↔
        ∀ c ∈ ([] : List Requirement), checkRequirements newGameState (some c) = true) := by
  decide

/-- C7, amended: for every resource state and every non-empty list of child
requirements `cs`, `checkRequirements` on the compound "and" node over `cs`
(whatever its leaf fields) is true if and only if it is true for every child; for
two children it is the conjunction of the two results; and the result does not
depend on the order of the children. -/
theorem checkRequirements_and_iff (g : Game) (cs : List Requirement) (r c : String) (v : Int)
    (h : cs ≠ []) :
    (checkRequirements g (some (.mk "and" cs r c v)) = true ↔
      ∀ x ∈ cs, checkRequirements g (some x) = true) ∧
    (∀ R1 R2 : Requirement, checkRequirements g (some (compoundNode "and" [R1, R2])) =
      (checkRequirements g (some R1) && checkRequirements g (some R2))) ∧
    (∀ cs2 : List Requirement, cs.Perm cs2 →
      checkRequirements g (some (.mk "and" cs2 r c v)) =
        checkRequirements g (some (.mk "and" cs r c v))) := by
  refine ⟨?_, ?_, ?_⟩
  · simp only [checkRequirements]
    rw [checkReq_and _ _ _ _ _ h, checkAll_iff]
  · intro R1 R2
    simp only [checkRequirements, compoundNode]
    rw [checkReq_and _ _ _ _ _ (by simp), checkAll, checkAll, checkAll]
    cases checkReq g.resources R1 <;> cases checkReq g.resources R2 <;> rfl
  · intro cs2 hp
    have h2 : cs2 ≠ [] := by
      intro h0
      rw [h0] at hp
      exact h (List.Perm.eq_nil hp)
    simp only [checkRequirements]
    rw [checkReq_and _ _ _ _ _ h, checkReq_and _ _ _ _ _ h2, Bool.eq_iff_iff, checkAll_iff,
      checkAll_iff]
    exact ⟨fun hh x hx => hh x (hp.mem_iff.mp hx), fun hh x hx => hh x (hp.mem_iff.mpr hx)⟩

/-- Witness for C7: an "and" node over a true and a false leaf at day 1. -/
theorem checkRequirements_and_iff_witness :
    [leafNode "day" "gte" 1, leafNode "boss" "gt" 90] ≠ [] ∧
    (checkRequirements newGameState
        (some (.mk "and" [leafNode "day" "gte" 1, leafNode "boss" "gt" 90] "" "" 0)) = true ↔
      ∀ x ∈ [leafNode "day" "gte" 1, leafNode "boss" "gt" 90],
        checkRequirements newGameState (some x) = true) :=
  ⟨by simp, (checkRequirements_and_iff newGameState
    [leafNode "day" "gte" 1, leafNode "boss" "gt" 90] "" "" 0 (by simp)).1⟩

/-- C8: for every resource state and every list of child requirements `cs`,
`checkRequirements` on the compound "or" node over `cs` with no leaf fields is
true if and only if it is true for at least one child in `cs`. -/
theorem checkRequirements_or_iff (g : Game) (cs : List Requirement) :
    checkRequirements g (some (compoundNode "or" cs)) = true ↔
      ∃ x ∈ cs, checkRequirements g (some x) = true := by
  simp only [checkRequirements, compoundNode]
  cases cs with
  | nil =>
    rw [checkReq_not_compound _ _ _ _ _ _ (by simp)]
    simp
  | cons a as =>
    rw [checkReq_or _ _ _ _ _ (by simp), checkAny_iff]

/-- C9: for every resource state, every resource name among motivation,
performance, colleagues, boss and day, every comparison among gt, lt, gte, lte,
eq and every integer threshold, `checkRequirements` on the leaf node returns the
result of comparing the named resource's current value with the threshold using
>, <, >=, <=, = respectively; the day counter is queryable like the four stats. -/
theorem checkRequirements_leaf (g : Game) :
    LeafCompares g "motivation" g.resources.Motivation ∧
    LeafCompares g "performance" g.resources.Performance ∧
    LeafCompares g "colleagues" g.resources.Colleagues ∧
    LeafCompares g "boss" g.resources.Boss ∧
    LeafCompares g "day" g.resources.Day := by
  refine ⟨?_, ?_, ?_, ?_, ?_⟩ <;> intro v <;>
    simp only [checkRequirements, leafNode] <;>
    refine ⟨?_, ?_, ?_, ?_, ?_⟩ <;>
    rw [checkReq_not_compound _ _ _ _ _ _ (by simp)] <;>
    simp [compareWith]

/-- C10: fail-closed evaluation. For every resource state, on a non-nil node
without the compound shape (a type with children) `checkRequirements` returns
false when the resource name is not one of motivation, performance, colleagues,
boss, day, and returns false when the node does not have the leaf shape (a
resource name with a comparison) either. -/
theorem checkRequirements_fail_closed (g : Game) (ty : String) (cs : List Requirement)
    (r c : String) (v : Int) (h : ¬ (ty ≠ "" ∧ cs ≠ [])) :
    (r ∉ ["motivation", "performance", "colleagues", "boss", "day"] →
      checkRequirements g (some (.mk ty cs r c v)) = false) ∧
    (¬ (r ≠ "" ∧ c ≠ "") → checkRequirements g (some (.mk ty cs r c v)) = false) := by
  simp only [checkRequirements]
  rw [checkReq_not_compound _ _ _ _ _ _ h]
  constructor
  · intro hr
    simp only [List.mem_cons, List.mem_singleton, List.not_mem_nil, or_false, not_or] at hr
    simp [hr.1, hr.2.1, hr.2.2.1, hr.2.2.2.1, hr.2.2.2.2]
  · intro hl
    rw [if_neg hl]

/-- Witness for C10: a leaf on the unknown resource "salary", and the node with
no field set, at the new-game state. -/
theorem checkRequirements_fail_closed_witness :
    checkRequirements newGameState (some (.mk "" [] "salary" "gt" 0)) = false ∧
    checkRequirements newGameState (some (.mk "" [] "" "" 0)) = false :=
  ⟨(checkRequirements_fail_closed newGameState "" [] "salary" "gt" 0 (by simp)).1 (by decide),
   (checkRequirements_fail_closed newGameState "" [] "" "" 0 (by simp)).2 (by simp)⟩

/-! ## Claims about the card pool -/



/-- C3 fails as stated: with the pool exhausted, the only card of the catalog
has `Uses = MaxUses` when `getNextCard` is called, and is returned (the reshuffle
zeroes its counter first). -/
theorem getNextCard_exhausted_counterexample :
    (exhaustedDeck.heap 0).Uses = (exhaustedDeck.heap 0).MaxUses ∧
    (getNextCard exhaustedDeck 0).1 = some 0 := by
  decide

/-- C3, amended: for every session state and every card whose use counter has
reached its maximum-use count when `getNextCard` is called, `getNextCard` does not
return that card, provided the call does not reshuffle it back into play: the
available pool holds a valid card at the call, or the card is not in the catalog,
or its maximum-use count is not positive. -/
theorem getNextCard_exhausted_not_returned (g : Game) (r p : Nat)
    (hex : (g.heap p).MaxUses ≤ (g.heap p).Uses)
    (hno : g.availableCards.filter (isValidCard g) ≠ [] ∨ p ∉ g.cards ∨
      (g.heap p).MaxUses ≤ 0) :
    (getNextCard g r).1 ≠ some p := by
  intro hret
  obtain ⟨h1, h2, h3⟩ := getNextCard_exhausted_returned g r p hex hret
  rcases hno with h | h | h
  · exact h h1
  · exact h h2
  · omega

/-- Witness for C3: with an eligible card in the pool the used-up card is not
returned. -/
theorem getNextCard_exhausted_not_returned_witness :
    (partlyUsedDeck.heap 0).MaxUses ≤ (partlyUsedDeck.heap 0).Uses ∧
    partlyUsedDeck.availableCards.filter (isValidCard partlyUsedDeck) ≠ [] ∧
    (getNextCard partlyUsedDeck 0).1 ≠ some 0 :=
  ⟨by decide, by decide,
    getNextCard_exhausted_not_returned partlyUsedDeck 0 0 (by decide) (Or.inl (by decide))⟩

/-- C4 fails as stated: day and stats are at 70, the win card has not been shown
this cycle and has uses remaining, but it is not in the available pool, and
`getNextCard` returns another card. -/
theorem getNextCard_win_card_counterexample :
    winCardDrawnDeck.resources.Day ≥ 70 ∧
    winCardDrawnDeck.resources.Motivation ≥ 70 ∧
    winCardDrawnDeck.resources.Performance ≥ 70 ∧
    winCardDrawnDeck.resources.Colleagues ≥ 70 ∧
    winCardDrawnDeck.resources.Boss ≥ 70 ∧
    winCardDrawnDeck.winCardShown = false ∧
    0 ∈ winCardDrawnDeck.cards ∧
    (winCardDrawnDeck.heap 0).ID = winCardID ∧
    (winCardDrawnDeck.heap 0).Uses < (winCardDrawnDeck.heap 0).MaxUses ∧
    (getNextCard winCardDrawnDeck 0).1 = some 1 := by
  decide

/-- C4, amended: for every session state in which day >= 70, all four stats are
>= 70, the win card has not yet been shown this cycle, and the card with id
COMPETITOR_JOB_OFFER is in the available pool with uses remaining, the next
`getNextCard` call returns that card, whatever the random value, the pending
followups and the card's own requirement are; the call sets the shown flag,
takes the card out of the pool and increments its use counter. -/
theorem getNextCard_win_card (g : Game) (r p : Nat)
    (hday : g.resources.Day ≥ 70) (hmot : g.resources.Motivation ≥ 70)
    (hperf : g.resources.Performance ≥ 70) (hcol : g.resources.Colleagues ≥ 70)
    (hboss : g.resources.Boss ≥ 70) (hflag : g.winCardShown = false)
    (hmem : p ∈ g.availableCards) (hid : (g.heap p).ID = winCardID)
    (huses : (g.heap p).Uses < (g.heap p).MaxUses)
    (hone : ∀ q ∈ g.availableCards, (g.heap q).ID = winCardID → q = p) :
    (getNextCard g r).1 = some p ∧
    (getNextCard g r).2.winCardShown = true ∧
    ((getNextCard g r).2.heap p).Uses = (g.heap p).Uses + 1 ∧
    (∃ i, g.availableCards[i]? = some p ∧
      (getNextCard g r).2.availableCards = g.availableCards.eraseIdx i) := by
  have hne : g.availableCards ≠ [] := List.ne_nil_of_mem hmem
  have hre := refillIfEmpty_of_ne_nil g hne
  have hcand : isWinCandidate g.heap p = true := by
    simp [isWinCandidate, hid, huses]
  cases hf : firstHit (isWinCandidate g.heap) g.availableCards with
  | none =>
    have := (firstHit_none_iff _ _).mp hf p hmem
    rw [hcand] at this
    simp at this
  | some hit =>
    obtain ⟨i, card⟩ := hit
    obtain ⟨hm, hp, hi⟩ := firstHit_some _ _ _ _ hf
    simp only [isWinCandidate, Bool.and_eq_true, decide_eq_true_eq] at hp
    have hcp : card = p := hone card hm hp.1
    subst hcp
    have hw : winCardBranch g = some (some card,
        { g with
          winCardShown := true
          availableCards := g.availableCards.eraseIdx i
          heap := setUses g.heap card ((g.heap card).Uses + 1) }) := by
      unfold winCardBranch
      rw [if_pos ⟨hday, hmot, hperf, hcol, hboss, hflag⟩, hf]
    have he : getNextCard g r = (some card,
        { g with
          winCardShown := true
          availableCards := g.availableCards.eraseIdx i
          heap := setUses g.heap card ((g.heap card).Uses + 1) }) := by
      simp only [getNextCard, hre, hw]
    rw [he]
    refine ⟨rfl, rfl, ?_, i, hi, rfl⟩
    show (setUses g.heap card _ card).Uses = _
    simp [setUses]

/-- Witness for C4: at day 70 with the four stats at exactly 70 the win card is
returned although its own requirement is false. -/
theorem getNextCard_win_card_witness :
    winCardReadyDeck.resources = thresholdResources ∧
    checkRequirements winCardReadyDeck (winCardReadyDeck.heap 1).Requirements = false ∧
    (getNextCard winCardReadyDeck 0).1 = some 1 ∧
    (getNextCard winCardReadyDeck 0).2.winCardShown = true :=
  ⟨rfl, by decide,
    (getNextCard_win_card winCardReadyDeck 0 1 (by decide) (by decide) (by decide) (by decide)
      (by decide) rfl (by decide) (by decide) (by decide) (by decide)).1,
    (getNextCard_win_card winCardReadyDeck 0 1 (by decide) (by decide) (by decide) (by decide)
      (by decide) rfl (by decide) (by decide) (by decide) (by decide)).2.1⟩

/-- C5 fails as stated: with unique ids, two consecutive calls at day 70 with all
stats at 70, neither of which starts from an empty pool (the shown flag is never
cleared), both return the COMPETITOR_JOB_OFFER card: the first through the
win-card branch, the second through the normal draw after the reshuffle made when
no valid card is left. -/
theorem win_card_once_per_cycle_counterexample :
    ((winCardAgainDeck.cards.map (fun q => (winCardAgainDeck.heap q).ID)).Nodup ∧
      (winCardAgainDeck.heap 0).ID = winCardID) ∧
    (∀ c ∈ callTrace winCardAgainDeck [(thresholdResources, 0), (thresholdResources, 0)],
      c.1.availableCards ≠ [] ∧ c.1.resources = thresholdResources) ∧
    (callTrace winCardAgainDeck [(thresholdResources, 0), (thresholdResources, 0)]).map
      (fun c => (getNextCard c.1 c.2).1) = [some 0, some 0] ∧
    (callTrace winCardAgainDeck [(thresholdResources, 0), (thresholdResources, 0)]).map
      (fun c => (takesWinBranch c, (getNextCard c.1 c.2).2.winCardShown)) =
        [(true, true), (false, true)] := by
  decide

/-- C5, amended: for every sequence of consecutive `getNextCard` calls, whether
or not day >= 70 and all four stats >= 70 hold at each call: (1) as long as no
call starts from an empty pool, so that the shown flag is never cleared, at most
one of the calls is answered by the win-card branch, and such a call returns a
COMPETITOR_JOB_OFFER card; (2) as long as no call reshuffles at all, in a pool
without duplicate entries in which the COMPETITOR_JOB_OFFER id is unique and with
no pending followup holding that card, at most one of the calls returns the
COMPETITOR_JOB_OFFER card. -/
theorem win_card_once_per_cycle (g : Game) (steps : List (Resources × Nat)) :
    ((∀ c ∈ callTrace g steps, c.1.availableCards ≠ []) →
      ((callTrace g steps).filter takesWinBranch).length ≤ 1) ∧
    (∀ c ∈ callTrace g steps, takesWinBranch c = true → returnsWinCard c = true) ∧
    ((∀ c ∈ callTrace g steps, reshuffles c = false) →
      g.availableCards.Nodup →
      (∀ q ∈ g.availableCards, ∀ q2 ∈ g.availableCards,
        (g.heap q).ID = winCardID → (g.heap q2).ID = winCardID → q = q2) →
      (∀ d ∈ g.delayedCards, (g.heap d.Card).ID ≠ winCardID) →
      ((callTrace g steps).filter returnsWinCard).length ≤ 1) :=
  ⟨win_branch_at_most_once steps g,
    fun c _ hc => (takesWinBranch_spec c.1 c.2 hc).2,
    win_card_at_most_once steps g⟩

/-- Witness for C5: two calls at the win threshold on a fresh two-card pool; the
first returns the win card, the second does not. -/
theorem win_card_once_per_cycle_witness :
    (∀ c ∈ callTrace winCardReadyDeck [(thresholdResources, 0), (thresholdResources, 0)],
      c.1.availableCards ≠ [] ∧ reshuffles c = false) ∧
    (callTrace winCardReadyDeck [(thresholdResources, 0), (thresholdResources, 0)]).map
      (fun c => (getNextCard c.1 c.2).1) = [some 1, some 0] ∧
    ((callTrace winCardReadyDeck [(thresholdResources, 0), (thresholdResources, 0)]).filter
      takesWinBranch).length ≤ 1 ∧
    ((callTrace winCardReadyDeck [(thresholdResources, 0), (thresholdResources, 0)]).filter
      returnsWinCard).length ≤ 1 :=
  ⟨by decide, by decide,
    (win_card_once_per_cycle winCardReadyDeck
      [(thresholdResources, 0), (thresholdResources, 0)]).1 (by decide),
    (win_card_once_per_cycle winCardReadyDeck
      [(thresholdResources, 0), (thresholdResources, 0)]).2.2 (by decide) (by decide)
      (by decide) (by decide)⟩

/-- C11 fails as stated: from colleagues 10, the colleagues delta 180 adds 62,
where truncating 0.35 times 180 gives 63: the `float64` product of 180 and 0.35
lies just below 63. -/
theorem updateResources_scaled_deltas_counterexample :
    (updateResources lowColleaguesState { Colleagues := 180 }).resources.Colleagues = 72 ∧
    trunc035 180 = 63 ∧
    clamp (wrap64 (lowColleaguesState.resources.Colleagues + trunc035 180)) minValue maxValue =
      73 := by
  decide

/-- C11, amended: for every state and every Effects value, `updateResources`
adds (in Go int arithmetic) to motivation, performance and boss the integer
obtained by truncating 0.5 times the delta, when the delta is below 2^53 in
absolute value, and to colleagues the integer obtained by truncating 0.35 times
the delta, when the delta is below 180 in absolute value, before clamping; in
particular an effect of colleagues = +20 changes colleagues by exactly 7 whenever
the result stays inside [0,100]. -/
theorem updateResources_scaled_deltas (g : Game) (e : Effects) :
    (e.Motivation.natAbs < 2 ^ 53 →
      (updateResources g e).resources.Motivation =
        clamp (wrap64 (g.resources.Motivation + truncHalf e.Motivation)) minValue maxValue) ∧
    (e.Performance.natAbs < 2 ^ 53 →
      (updateResources g e).resources.Performance =
        clamp (wrap64 (g.resources.Performance + truncHalf e.Performance)) minValue maxValue) ∧
    (e.Boss.natAbs < 2 ^ 53 →
      (updateResources g e).resources.Boss =
        clamp (wrap64 (g.resources.Boss + truncHalf e.Boss)) minValue maxValue) ∧
    (e.Colleagues.natAbs < 180 →
      (updateResources g e).resources.Colleagues =
        clamp (wrap64 (g.resources.Colleagues + trunc035 e.Colleagues)) minValue maxValue) ∧
    (e.Colleagues = 20 → 0 ≤ g.resources.Colleagues + 7 → g.resources.Colleagues + 7 ≤ 100 →
      (updateResources g e).resources.Colleagues = g.resources.Colleagues + 7) := by
  rw [updateResources_resources]
  refine ⟨?_, ?_, ?_, ?_, ?_⟩
  · intro h1
    show clamp (wrap64 _) _ _ = _
    rw [scaleHalf_eq_truncHalf _ h1]
  · intro h1
    show clamp (wrap64 _) _ _ = _
    rw [scaleHalf_eq_truncHalf _ h1]
  · intro h1
    show clamp (wrap64 _) _ _ = _
    rw [scaleHalf_eq_truncHalf _ h1]
  · intro h1
    show clamp (wrap64 _) _ _ = _
    rw [scale035_eq_trunc035 _ h1]
  · intro h1 h2 h3
    show clamp (wrap64 _) _ _ = _
    have h7 : scale035 20 = 7 := by decide
    rw [h1, h7, wrap64_of_inInt64 _ (by unfold InInt64; omega), clamp_of_mem _ h2 h3]

/-- Witness for C11: from 40/40/40/40 the effect -5/+10/+20/+3 moves motivation
to 38 (the truncation of -2.5 is -2) and colleagues to 47. -/
theorem updateResources_scaled_deltas_witness :
    (updateResources newGameState
      { Motivation := -5, Performance := 10, Colleagues := 20, Boss := 3 }).resources.Motivation =
        clamp (wrap64 (40 + truncHalf (-5))) minValue maxValue ∧
    clamp (wrap64 (40 + truncHalf (-5))) minValue maxValue = 38 ∧
    (updateResources newGameState
      { Motivation := -5, Performance := 10, Colleagues := 20, Boss := 3 }).resources.Colleagues =
        40 + 7 :=
  ⟨(updateResources_scaled_deltas newGameState
      { Motivation := -5, Performance := 10, Colleagues := 20, Boss := 3 }).1 (by decide),
    by decide,
    (updateResources_scaled_deltas newGameState
      { Motivation := -5, Performance := 10, Colleagues := 20, Boss := 3 }).2.2.2.2
      rfl (by decide) (by decide)⟩

/-- C12 fails as stated: the new one-card game reaches, after 2^63 - 2
decisions, a session whose day counter holds the largest Go `int`; there
`updateResources` (and so the next decision) wraps the counter to -2^63 instead
of increasing it by 1. -/
theorem updateResources_day_counterexample :
    decideTimes (2 ^ 63 - 2) oneCardNewGame = maxDayState ∧
    maxDayState.resources.Day = 2 ^ 63 - 1 ∧
    (updateResources maxDayState {}).resources.Day = -2 ^ 63 ∧
    (processCard maxDayState false 0).resources.Day = -2 ^ 63 := by
  refine ⟨maxDayState_reached, rfl, ?_, ?_⟩
  · rw [updateResources_wraps_day]
    show wrap64 (2 ^ 63 - 1 + 1) = -2 ^ 63
    decide
  · rw [maxDayState, longRun_step]
    show wrap64 (2 ^ 63 - 1 + 1) = -2 ^ 63
    decide

/-- C12, amended: for every state whose day counter is a Go int below the
largest one (2^63 - 1) and every Effects value, `updateResources` increases the
day counter by exactly 1, independently of the four stat deltas. -/
theorem updateResources_day (g : Game) (e : Effects)
    (hlo : -2 ^ 63 ≤ g.resources.Day) (hhi : g.resources.Day < 2 ^ 63 - 1) :
    (updateResources g e).resources.Day = g.resources.Day + 1 ∧
    ∀ e2 : Effects, (updateResources g e2).resources.Day = (updateResources g e).resources.Day := by
  constructor
  · rw [updateResources_wraps_day]
    apply wrap64_of_inInt64
    unfold InInt64
    omega
  · intro e2
    rw [updateResources_wraps_day, updateResources_wraps_day]

/-- Witness for C12: at day 1 an effect with four non-zero deltas leads to day 2,
as the effect without deltas does. -/
theorem updateResources_day_witness :
    (updateResources newGameState
      { Motivation := -5, Performance := 10, Colleagues := 20, Boss := 3 }).resources.Day = 1 + 1 ∧
    (updateResources newGameState {}).resources.Day =
      (updateResources newGameState
        { Motivation := -5, Performance := 10, Colleagues := 20, Boss := 3 }).resources.Day :=
  ⟨(updateResources_day newGameState
      { Motivation := -5, Performance := 10, Colleagues := 20, Boss := 3 }
      (by decide) (by decide)).1,
    (updateResources_day newGameState
      { Motivation := -5, Performance := 10, Colleagues := 20, Boss := 3 }
      (by decide) (by decide)).2 {}⟩

/-! ## Claims about decisions -/

/-- C13: for every state that is not game-over and whose current card has id
COMPETITOR_JOB_OFFER, `processCard` with the yes decision sets the game-over
flag, moves the state to `stateGameOver` and sets the reason to the
competitor-offer victory message, which differs from all eight stat-boundary
messages, and it applies no effect: the four stats, the day counter, the
available pool, the pending followups and the card store are unchanged. -/
theorem processCard_competitor_offer (g : Game) (cur r : Nat)
    (hcur : g.currentCard = some cur) (hover : g.gameOver = false)
    (hid : (g.heap cur).ID = winCardID) :
    (processCard g true r).gameOver = true ∧
    (processCard g true r).state = stateGameOver ∧
    (processCard g true r).gameOverReason = competitorWinMessage ∧
    competitorWinMessage ∉ [msgMotivationLow, msgMotivationHigh, msgPerformanceLow,
      msgPerformanceHigh, msgColleaguesLow, msgColleaguesHigh, msgBossLow, msgBossHigh] ∧
    (processCard g true r).resources = g.resources ∧
    (processCard g true r).availableCards = g.availableCards ∧
    (processCard g true r).delayedCards = g.delayedCards ∧
    (processCard g true r).heap = g.heap := by
  rw [processCard_accept_offer g cur r hcur hover hid]
  exact ⟨rfl, rfl, rfl, by decide, rfl, rfl, rfl, rfl⟩

/-- Witness for C13: accepting the offer shown at the win threshold. -/
theorem processCard_competitor_offer_witness :
    offerShownDeck.currentCard = some 0 ∧ offerShownDeck.gameOver = false ∧
    (processCard offerShownDeck true 0).gameOver = true ∧
    (processCard offerShownDeck true 0).gameOverReason = competitorWinMessage ∧
    (processCard offerShownDeck true 0).resources = thresholdResources :=
  ⟨rfl, rfl,
    (processCard_competitor_offer offerShownDeck 0 0 rfl rfl (by decide)).1,
    (processCard_competitor_offer offerShownDeck 0 0 rfl rfl (by decide)).2.2.1,
    (processCard_competitor_offer offerShownDeck 0 0 rfl rfl (by decide)).2.2.2.2.1⟩

/-- C14 fails as stated: on an info-only card that carries the id
COMPETITOR_JOB_OFFER the yes decision ends the game with the competitor-offer
message while the no decision applies the card's effect set and continues. -/
theorem processCard_info_only_counterexample :
    infoOfferDeck.gameOver = false ∧ infoOfferDeck.currentCard = some 0 ∧
    (infoOfferDeck.heap 0).IsInfoOnly = true ∧
    (processCard infoOfferDeck true 0).gameOver = true ∧
    (processCard infoOfferDeck true 0).gameOverReason = competitorWinMessage ∧
    (processCard infoOfferDeck true 0).resources.Day = 1 ∧
    (processCard infoOfferDeck false 0).gameOver = false ∧
    (processCard infoOfferDeck false 0).resources.Day = 2 ∧
    (processCard infoOfferDeck false 0).currentCard = some 1 := by
  decide

/-- C14, amended: for every state whose current card is info-only and does not
have the id COMPETITOR_JOB_OFFER, `processCard` with the yes decision and with
the no decision lead, for the same random value, to the same resulting session. -/
theorem processCard_info_only (g : Game) (cur r : Nat) (hcur : g.currentCard = some cur)
    (hinfo : (g.heap cur).IsInfoOnly = true) (hid : (g.heap cur).ID ≠ winCardID) :
    processCard g true r = processCard g false r := by
  unfold processCard
  simp only [hcur, hinfo, hid, false_and, if_false, if_true]

/-- Witness for C14: an ordinary info-only card; either decision applies its
effect set and draws the same next card. -/
theorem processCard_info_only_witness :
    infoCardDeck.gameOver = false ∧
    processCard infoCardDeck true 0 = processCard infoCardDeck false 0 ∧
    (processCard infoCardDeck false 0).resources.Motivation = 45 ∧
    (processCard infoCardDeck false 0).currentCard = some 1 :=
  ⟨rfl, processCard_info_only infoCardDeck 0 0 rfl (by decide) (by decide), by decide,
    by decide⟩

set_option maxRecDepth 100000 in
/-- C15 fails as stated: the only card of the catalog requires a day below 3;
deciding it at day 2 leaves no eligible card even after the reshuffle, and the
session stays in `stateGame` with a nil current card, the game-over flag unset and
no reason. -/
theorem processCard_no_card_counterexample :
    deadEndDeck.gameOver = false ∧ deadEndDeck.state = stateGame ∧
    (getNextCard (afterEffects deadEndDeck 0 false) 0).1 = none ∧
    (processCard deadEndDeck false 0).currentCard = none ∧
    (processCard deadEndDeck false 0).gameOver = false ∧
    (processCard deadEndDeck false 0).state = stateGame ∧
    (processCard deadEndDeck false 0).gameOverReason = "" := by
  decide

/-- C15, amended: for every state that is not game-over, when `processCard`
applies a decision that does not end the game and after which `getNextCard` finds
no eligible card even after one reshuffle, the session is left with a nil current
card, the game-over flag unset and the state and the reason as they were; every
later decision is ignored. -/
theorem processCard_no_card (g : Game) (cur : Nat) (isYes : Bool) (r : Nat)
    (hcur : g.currentCard = some cur) (hover : g.gameOver = false)
    (hnot : ¬ ((g.heap cur).ID = winCardID ∧ isYes = true))
    (hcont : (afterEffects g cur isYes).gameOver = false)
    (hnone : (getNextCard (afterEffects g cur isYes) r).1 = none) :
    (processCard g isYes r).currentCard = none ∧
    (processCard g isYes r).gameOver = false ∧
    (processCard g isYes r).state = g.state ∧
    (processCard g isYes r).gameOverReason = g.gameOverReason ∧
    ∀ (b : Bool) (r2 : Nat), processCard (processCard g isYes r) b r2 = processCard g isYes r := by
  have hp := processCard_apply g cur isYes r hcur hover hnot
  rw [if_neg (by simp [hcont])] at hp
  obtain ⟨h1, h2, h3, -, -⟩ := getNextCard_frame_machine (afterEffects g cur isYes) r
  obtain ⟨-, h5, h6⟩ := updateResources_not_over (recordPlayed g cur)
    (decisionEffects (g.heap cur) isYes) hcont
  have hst : (recordPlayed g cur).state = g.state ∧
      (recordPlayed g cur).gameOverReason = g.gameOverReason := by
    unfold recordPlayed
    split_ifs <;> exact ⟨rfl, rfl⟩
  have hcard : (processCard g isYes r).currentCard = none := by rw [hp]; exact hnone
  refine ⟨hcard, ?_, ?_, ?_, ?_⟩
  · rw [hp]; exact h1.trans hcont
  · rw [hp]; exact h2.trans (h5.trans hst.1)
  · rw [hp]; exact h3.trans (h6.trans hst.2)
  · intro b r2
    generalize processCard g isYes r = g2 at hcard
    unfold processCard
    rw [hcard]

/-- Witness for C15: the dead-end session; the card is nil afterwards and a
further decision changes nothing. -/
theorem processCard_no_card_witness :
    (processCard deadEndDeck false 0).currentCard = none ∧
    (processCard deadEndDeck false 0).gameOver = false ∧
    (processCard deadEndDeck false 0).state = stateGame ∧
    processCard (processCard deadEndDeck false 0) true 7 = processCard deadEndDeck false 0 :=
  ⟨(processCard_no_card deadEndDeck 0 false 0 rfl rfl (by decide) (by decide) (by decide)).1,
    (processCard_no_card deadEndDeck 0 false 0 rfl rfl (by decide) (by decide) (by decide)).2.1,
    (processCard_no_card deadEndDeck 0 false 0 rfl rfl (by decide) (by decide) (by decide)).2.2.1,
    (processCard_no_card deadEndDeck 0 false 0 rfl rfl (by decide) (by decide)
      (by decide)).2.2.2.2 true 7⟩

/-- C16: for every session state, `restartGame` sets all four stats to 50 and
the day to 1, empties the play history and the pending followup list, clears the
game-over flag and the win-card-shown flag, and puts the state machine back in
`stateGame`, showing a freshly allocated welcome card. -/
theorem restartGame_resets (g : Game) :
    (restartGame g).resources =
      { Motivation := 50, Performance := 50, Colleagues := 50, Boss := 50, Day := 1 } ∧
    (restartGame g).playedCardIDs = [] ∧
    (restartGame g).delayedCards = [] ∧
    (restartGame g).gameOver = false ∧
    (restartGame g).winCardShown = false ∧
    (restartGame g).state = stateGame ∧
    (restartGame g).currentCard = some g.heapNext ∧
    ((restartGame g).heap g.heapNext).ID = "WELCOME" ∧
    ((restartGame g).heap g.heapNext).IsInfoOnly = true :=
  ⟨rfl, rfl, rfl, rfl, rfl, rfl, rfl,
    by
      show (if g.heapNext = g.heapNext then (_ : Card) else _).ID = "WELCOME"
      rw [if_pos rfl],
    by
      show (if g.heapNext = g.heapNext then (_ : Card) else _).IsInfoOnly = true
      rw [if_pos rfl]⟩

/-- C17, the code at a failing input: at day 2 the current card names a followup
for the yes decision; after `processCard` with yes the pending followup list is
still empty. No decision ever adds to the pending list: it is a sublist of what
it was. -/
theorem processCard_schedules_nothing :
    (followupDeck.gameOver = false ∧ followupDeck.currentCard = some 0 ∧
      (followupDeck.heap 0).YesFollowup.isSome = true ∧ followupDeck.delayedCards = [] ∧
      (processCard followupDeck true 0).delayedCards = []) ∧
    ∀ (g : Game) (isYes : Bool) (r : Nat),
      (processCard g isYes r).delayedCards.Sublist g.delayedCards := by
  refine ⟨⟨rfl, rfl, rfl, rfl, by decide⟩, ?_⟩
  intro g isYes r
  cases hcur : g.currentCard with
  | none =>
    have : processCard g isYes r = g := by unfold processCard; rw [hcur]
    rw [this]
  | some cur =>
    by_cases hover : g.gameOver = true
    · have : processCard g isYes r = g := by
        unfold processCard; simp only [hcur, hover, if_true]
      rw [this]
    · have hover2 : g.gameOver = false := by simpa using hover
      have hrec : (recordPlayed g cur).delayedCards = g.delayedCards := by
        unfold recordPlayed; split_ifs <;> rfl
      by_cases hwin : (g.heap cur).ID = winCardID ∧ isYes = true
      · obtain ⟨hid, hy⟩ := hwin
        subst hy
        rw [processCard_accept_offer g cur r hcur hover2 hid]
      · rw [processCard_apply g cur isYes r hcur hover2 hwin]
        have hupd : (afterEffects g cur isYes).delayedCards = g.delayedCards := by
          unfold afterEffects
          rw [updateResources_eq]
          unfold checkGameOver
          split_ifs <;> exact hrec
        split_ifs
        · rw [hupd]
        · show (getNextCard (afterEffects g cur isYes) r).2.delayedCards.Sublist _
          rw [← hupd]
          exact (getNextCard_frame _ r).2.2.2.1

/-! ## Claims about followups and reshuffles -/

/-- C20 fails as stated: the call reaches the normal draw with a non-empty pool
and no valid card; its reshuffle zeroes the use counter of the used-up card,
which is then valid again and is returned. -/
theorem getNextCard_reshuffle_counterexample :
    noValidDeck.availableCards = [0] ∧
    (winCardBranch noValidDeck).isSome = false ∧ (delayedBranch noValidDeck).isSome = false ∧
    noValidDeck.availableCards.filter (isValidCard noValidDeck) = [] ∧
    (noValidDeck.heap 1).Uses = 1 ∧ (noValidDeck.heap 1).MaxUses = 1 ∧
    ((resetAvailableCards noValidDeck).heap 1).Uses = 0 ∧
    (getNextCard noValidDeck 0).1 = some 1 ∧
    ((getNextCard noValidDeck 0).2.heap 1).Uses = 1 ∧
    (getNextCard noValidDeck 0).2.availableCards = [0] := by
  decide

/-- C20, amended: for every session state in which `getNextCard` reaches the
normal draw with a non-empty available pool and finds no card with uses < maxUses
and a true requirement, the single reshuffle it performs resets the available
pool to the full catalog and sets the use counter of every catalog card to 0,
leaving the cards outside the catalog as they were; a card selected after the
reshuffle leaves the pool and has its counter at 1. -/
theorem getNextCard_reshuffle (g : Game) (r : Nat) (hpool : g.availableCards ≠ [])
    (hwin : (winCardBranch g).isSome = false) (hdel : (delayedBranch g).isSome = false)
    (hnone : g.availableCards.filter (isValidCard g) = []) :
    ((getNextCard g r).1 = none → (getNextCard g r).2.availableCards = g.cards) ∧
    (∀ sel, (getNextCard g r).1 = some sel →
      sel ∈ g.cards ∧ (getNextCard g r).2.availableCards = g.cards.erase sel ∧
      ((getNextCard g r).2.heap sel).Uses = 1) ∧
    (∀ q ∈ g.cards, (getNextCard g r).1 ≠ some q → ((getNextCard g r).2.heap q).Uses = 0) ∧
    (∀ q, q ∉ g.cards → (getNextCard g r).2.heap q = g.heap q) := by
  have hwin2 : winCardBranch g = none := by
    cases h : winCardBranch g with
    | none => rfl
    | some x => rw [h] at hwin; simp at hwin
  have hdel2 : delayedBranch g = none := by
    cases h : delayedBranch g with
    | none => rfl
    | some x => rw [h] at hdel; simp at hdel
  rcases getNextCard_after_reshuffle g r hpool hwin2 hdel2 hnone with he | ⟨sel, hsel, he⟩
  · rw [he]
    refine ⟨fun _ => rfl, ?_, ?_, ?_⟩
    · intro sel h; simp at h
    · intro q hq _
      exact resetAvailableCards_uses_of_mem g q hq
    · intro q hq
      exact resetAvailableCards_heap_of_not_mem g q hq
  · rw [he]
    refine ⟨?_, ?_, ?_, ?_⟩
    · intro h; simp at h
    · intro s hs
      simp only [Option.some.injEq] at hs
      subst hs
      refine ⟨hsel, rfl, ?_⟩
      show (setUses _ sel 1 sel).Uses = 1
      simp [setUses]
    · intro q hq hne
      have hqs : q ≠ sel := by
        intro h; exact hne (by rw [h])
      show (setUses _ sel 1 q).Uses = 0
      rw [setUses_apply, if_neg hqs]
      exact resetAvailableCards_uses_of_mem g q hq
    · intro q hq
      have hqs : q ≠ sel := by
        intro h; exact hq (h ▸ hsel)
      show setUses _ sel 1 q = _
      rw [setUses_apply, if_neg hqs]
      exact resetAvailableCards_heap_of_not_mem g q hq

/-- Witness for C20: the reshuffle of the session without a valid card resets
the counters, and the card drawn earlier in the cycle is returned again. -/
theorem getNextCard_reshuffle_witness :
    noValidDeck.availableCards ≠ [] ∧
    ((getNextCard noValidDeck 0).2.heap 0).Uses = 0 ∧
    (getNextCard noValidDeck 0).2.availableCards = noValidDeck.cards.erase 1 :=
  ⟨by decide,
    (getNextCard_reshuffle noValidDeck 0 (by decide) (by decide) (by decide)
      (by decide)).2.2.1 0 (by decide) (by decide),
    ((getNextCard_reshuffle noValidDeck 0 (by decide) (by decide) (by decide)
      (by decide)).2.1 1 (by decide)).2.1⟩

/-! ## Claims about use counters -/

/-- C18: use-count invariant. For every session whose cards (of the catalog and
of the pending followup list) all have maxUses >= 0 and uses <= maxUses, after
any of `resetAvailableCards`, `getNextCard`, `processCard` and `restartGame`
every card of the catalog and of the pending followup list still has uses <=
maxUses (and maxUses >= 0); a card's counter is only ever reset to 0 or
incremented by one, and incremented only when it was strictly below maxUses. -/
theorem uses_invariant (g : Game) (hb : UsesBounded g) :
    (UsesBounded (resetAvailableCards g) ∧ UsesStep g (resetAvailableCards g)) ∧
    (∀ r, UsesBounded (getNextCard g r).2 ∧ UsesStep g (getNextCard g r).2) ∧
    (∀ isYes r, UsesBounded (processCard g isYes r) ∧ UsesStep g (processCard g isYes r)) ∧
    (UsesBounded (restartGame g) ∧ UsesStep g (restartGame g)) :=
  ⟨resetAvailableCards_uses g hb, fun r => getNextCard_uses g r hb,
    fun isYes r => processCard_uses g isYes r hb, restartGame_uses g hb⟩

/-- Witness for C18: the two-card session with one used-up card satisfies the
invariant, and keeps it through a draw. -/
theorem uses_invariant_witness :
    UsesBounded partlyUsedDeck ∧ UsesBounded (getNextCard partlyUsedDeck 0).2 ∧
    ((getNextCard partlyUsedDeck 0).2.heap 1).Uses = 1 :=
  have hb : UsesBounded partlyUsedDeck := by
    intro q hq
    rcases hq with h | ⟨d, hd, -⟩
    · have h2 : q = 0 ∨ q = 1 := by simpa [partlyUsedDeck] using h
      rcases h2 with rfl | rfl <;> decide
    · exact absurd hd (List.not_mem_nil d)
  ⟨hb, ((uses_invariant partlyUsedDeck hb).2.1 0).1, by decide⟩

/-! ## Claims about the terminal state -/

/-- C21: the game-over state is absorbing for decisions. For every session state
whose game-over flag is set, or whose current card is nil, and either decision
(and any random value), `processCard` leaves the whole session unchanged: the
four stats, the day, the available pool, every use counter, the pending
followups, the play history, the current card, the game-over flag, the reason and
the state. -/
theorem processCard_absorbing (g : Game) (isYes : Bool) (r : Nat)
    (h : g.gameOver = true ∨ g.currentCard = none) :
    processCard g isYes r = g ∧
    (processCard g isYes r).resources = g.resources ∧
    (processCard g isYes r).availableCards = g.availableCards ∧
    (∀ q, ((processCard g isYes r).heap q).Uses = (g.heap q).Uses) ∧
    (processCard g isYes r).delayedCards = g.delayedCards ∧
    (processCard g isYes r).playedCardIDs = g.playedCardIDs ∧
    (processCard g isYes r).currentCard = g.currentCard ∧
    (processCard g isYes r).gameOver = g.gameOver ∧
    (processCard g isYes r).gameOverReason = g.gameOverReason ∧
    (processCard g isYes r).state = g.state := by
  have he : processCard g isYes r = g := by
    unfold processCard
    cases hcur : g.currentCard with
    | none => rfl
    | some cur =>
      rcases h with hover | hnil
      · simp only [hover, if_true]
      · rw [hcur] at hnil
        simp at hnil
  rw [he]
  exact ⟨rfl, rfl, rfl, fun _ => rfl, rfl, rfl, rfl, rfl, rfl, rfl⟩

/-- Witness for C21: after the game ended on the motivation floor a yes decision
on the card still shown changes nothing, and neither does a decision on a session
without a current card. -/
theorem processCard_absorbing_witness :
    gameOverDeck.gameOver = true ∧ gameOverDeck.currentCard = some 0 ∧
    processCard gameOverDeck true 0 = gameOverDeck ∧
    (processCard gameOverDeck true 0).resources.Motivation = 0 ∧
    (processCard gameOverDeck true 0).gameOverReason = msgMotivationLow ∧
    noCardDeck.gameOver = false ∧ noCardDeck.currentCard = none ∧
    processCard noCardDeck false 3 = noCardDeck :=
  ⟨rfl, rfl,
    (processCard_absorbing gameOverDeck true 0 (Or.inl rfl)).1,
    (processCard_absorbing gameOverDeck true 0 (Or.inl rfl)).2.1 ▸ rfl,
    (processCard_absorbing gameOverDeck true 0 (Or.inl rfl)).2.2.2.2.2.2.2.2.1 ▸ rfl,
    rfl, rfl,
    (processCard_absorbing noCardDeck false 3 (Or.inr rfl)).1⟩

end OfficePolitics
